import Mathlib

/-!
# CustomBP: a global-history branch predictor with a NAND index

A shallow embedding of `CustomBP` (src/custom.hh, src/custom.cc).

Conventions of the embedding

* `unsigned` members and locals are natural numbers; every place where the C++
  value is cut to a word carries an explicit `% 2 ^ 32` (or `% 2 ^ 64` for
  `Addr` and `unsigned long long` intermediates). A left shift is the
  mathematical shift followed by that reduction. Where the shift count is a
  parameter and can reach the width of the 64-bit operand, which C++ leaves
  undefined, the count is taken modulo 64, as the shift instruction of the
  processor takes it.
* `std::vector` members are lists. Reading or writing an element outside the
  vector is undefined behaviour in C++ and is the fault `Fault.undefined` here.
* The `BPHistory` records made by `new` live in an explicit free store
  (`Heap`); a `void *` is an address, `0` is the null pointer. Using an
  address that holds no live record is `Fault.undefined`.
* Every member function is a function from the state before the call to either
  a fault or the results together with the state after the call.
-/

namespace CustomBP

/-! ## Faults -/

/-- Ways in which a call does not return normally. -/
inductive Fault where
  /-- The `fatal("Invalid global predictor size.\n")` of the constructor. -/
  | fatal
  /-- The `assert(bp_history)` of `update` failed. -/
  | assertion
  /-- Undefined behaviour: an element access outside a vector, or the use of a
  pointer that does not address a live `BPHistory`. -/
  | undefined
deriving DecidableEq

/-! ## Collaborators that are not among the sources -/

/-- Modelled from the spec: the saturating counter `SatCounter8` of
base/sat_counter.hh, which is not among the sources. The spec describes "a
fixed-bit-width counter supporting increment-with-clamp, decrement-with-clamp,
and greater-than(threshold) comparison", "clamped to `[0, 2^counterBits - 1]`,
initialized to 0". `maxVal` is the upper clamp and `counter` the current value. -/
structure SatCounter8 where
  maxVal : Nat
  counter : Nat
deriving DecidableEq

/-- Modelled from the spec: the counter `SatCounter8(bits)` builds, "each
`counterBits` wide, clamped to `[0, 2^counterBits - 1]`, initialized to 0". -/
def SatCounter8.init (bits : Nat) : SatCounter8 :=
  { maxVal := 2 ^ bits - 1, counter := 0 }

/-- Modelled from the spec: `operator++` of the counter, "increment-with-clamp":
one more, but never above the upper clamp. -/
def SatCounter8.increment (c : SatCounter8) : SatCounter8 :=
  { c with counter := min (c.counter + 1) c.maxVal }

/-- Modelled from the spec: `operator--` of the counter, "decrement-with-clamp":
one less, but never below 0 (truncated subtraction). -/
def SatCounter8.decrement (c : SatCounter8) : SatCounter8 :=
  { c with counter := c.counter - 1 }

/-- Modelled from the spec: `mask(nbits)` of base/bitfield.hh, which is not among
the sources; the spec gives `historyRegisterMask = 2^historyBits - 1`. -/
def mask (nbits : Nat) : Nat :=
  2 ^ nbits - 1

/-- Modelled from the spec: `isPowerOf2` of base/intmath.hh, which is not among
the sources; the spec names the rejected configurations "non-power-of-two table
size". Computed by the usual test `n != 0 && (n & (n - 1)) == 0`; see
`isPowerOf2_iff` for the agreement with "is some `2 ^ k`". -/
def isPowerOf2 (n : Nat) : Bool :=
  n != 0 && (n &&& (n - 1)) == 0

/-! ## Data -/

/-- The record `struct BPHistory` of custom.hh. -/
structure BPHistory where
  globalHistory : Nat
deriving DecidableEq

/-- The free store: cell `i` belongs to address `i + 1`; it is `some r` while
the record made by `new` is live and `none` once `delete` has run on it. -/
abbrev Heap := List (Option BPHistory)

/-- Result of `new BPHistory` followed by the store through the fresh pointer: a
fresh non-null address and the store extended by the record. -/
def Heap.alloc (hp : Heap) (r : BPHistory) : Nat × Heap :=
  (hp.length + 1, hp ++ [some r])

/-- The live record a pointer addresses, if any (`ptr->...`). -/
def Heap.read (hp : Heap) (ptr : Nat) : Option BPHistory :=
  if ptr = 0 then none else (hp[ptr - 1]?).join

/-- Result of `delete ptr`: the cell is no longer live. `none` when the pointer
addresses no live record. -/
def Heap.free (hp : Heap) (ptr : Nat) : Option Heap :=
  match hp.read ptr with
  | none => none
  | some _ => some (hp.set (ptr - 1) none)

/-- The fields of `CustomBPParams` the constructor reads, and `instShiftAmt`,
which the base class `BPredUnit` takes from the same parameters. -/
structure CustomBPParams where
  numThreads : Nat
  globalHistoryBits : Nat
  globalPredictorSize : Nat
  globalCtrBits : Nat
  instShiftAmt : Nat
deriving DecidableEq

end CustomBP

/-- The data members of `class CustomBP` (custom.hh, lines 29 to 42), with
`instShiftAmt` inherited from `BPredUnit`. -/
structure CustomBP where
  instShiftAmt : Nat
  globalHistory : List Nat
  globalHistoryBits : Nat
  globalPredictorSize : Nat
  globalCtrBits : Nat
  globalCtrs : List CustomBP.SatCounter8
  historyRegisterMask : Nat
  globalThreshold : Nat
deriving DecidableEq

namespace CustomBP

/-! ## The constructor -/

/-- The value line 31 stores in `globalThreshold`:
`(ULL(1) << (globalCtrBits - 1)) - 1`, with `globalCtrBits - 1` an `unsigned`
difference, the shift and the decrement on 64-bit words, and the result cut to
the `unsigned` member. The shift count is taken modulo 64; that only shows for
a counter width of 0 or above 64, where the C++ shift is undefined. -/
def thresholdWord (globalCtrBits : Nat) : Nat :=
  (((1 <<< (((globalCtrBits + 2 ^ 32 - 1) % 2 ^ 32) % 64)) % 2 ^ 64 + 2 ^ 64 - 1) % 2 ^ 64)
    % 2 ^ 32

/-- The value line 29 stores in `historyRegisterMask`: `mask(globalHistoryBits)`
cut to the `unsigned` member. -/
def maskWord (globalHistoryBits : Nat) : Nat :=
  mask globalHistoryBits % 2 ^ 32

/-- `CustomBP::CustomBP` (custom.cc, lines 12 to 32). -/
def construct (params : CustomBPParams) : Except Fault CustomBP :=
  if !isPowerOf2 params.globalPredictorSize then
    .error .fatal
  else
    .ok
      { instShiftAmt := params.instShiftAmt
        globalHistory := List.replicate params.numThreads 0
        globalHistoryBits := params.globalHistoryBits
        globalPredictorSize := params.globalPredictorSize
        globalCtrBits := params.globalCtrBits
        globalCtrs :=
          List.replicate params.globalPredictorSize (SatCounter8.init params.globalCtrBits)
        historyRegisterMask := maskWord params.globalHistoryBits
        globalThreshold := thresholdWord params.globalCtrBits }

/-! ## The member functions -/

/-- The two statements that compute `index` in `lookup` (lines 43, 44) and again
in `update` (lines 111, 112), for the history value `h = globalHistory[tid]`:
the 64-bit complement of `(branch_addr << instShiftAmt) & h`, cut to the
`unsigned` local, then ANDed with `historyRegisterMask`. For `instShiftAmt` of
64 or more the shift of the 64-bit `Addr` is undefined in C++; the shift
instruction takes the count modulo 64, and so does this definition. Every
theorem that relates the index to the shifted address assumes
`instShiftAmt < 64`. -/
def index (s : CustomBP) (branch_addr h : Nat) : Nat :=
  ((2 ^ 64 - 1 - (((branch_addr <<< (s.instShiftAmt % 64)) % 2 ^ 64) &&& h)) % 2 ^ 32)
    &&& s.historyRegisterMask

/-- `CustomBP::lookup` (lines 41 to 68). Returns the prediction, the pointer
stored in `bp_history`, and the state and free store after the call. -/
def lookup (s : CustomBP) (hp : Heap) (tid branch_addr : Nat) :
    Except Fault (Bool × Nat × CustomBP × Heap) :=
  match s.globalHistory[tid]? with
  | none => .error .undefined
  | some h =>
    match s.globalCtrs[index s branch_addr h]? with
    | none => .error .undefined
    | some ctr =>
      let prediction := decide (s.globalThreshold < ctr.counter)
      let a := Heap.alloc hp { globalHistory := h &&& s.historyRegisterMask }
      if prediction then
        .ok (true, a.1,
          { s with globalHistory :=
              s.globalHistory.set tid ((((h <<< 1) % 2 ^ 32) ||| 1) &&& s.historyRegisterMask) },
          a.2)
      else
        .ok (false, a.1,
          { s with globalHistory :=
              s.globalHistory.set tid (((h <<< 1) % 2 ^ 32) &&& s.historyRegisterMask) },
          a.2)

/-- `CustomBP::uncondBranch` (lines 74 to 82). Returns the pointer stored in
`bp_history` and the state and free store after the call; `pc` is not used. -/
def uncondBranch (s : CustomBP) (hp : Heap) (tid : Nat) (_pc : Nat) :
    Except Fault (Nat × CustomBP × Heap) :=
  match s.globalHistory[tid]? with
  | none => .error .undefined
  | some h =>
    let a := Heap.alloc hp { globalHistory := h &&& s.historyRegisterMask }
    .ok (a.1,
      { s with globalHistory :=
          s.globalHistory.set tid ((((h <<< 1) % 2 ^ 32) ||| 1) &&& s.historyRegisterMask) },
      a.2)

/-- `CustomBP::btbUpdate` (lines 89 to 91); `branch_addr` and `bp_history` are
not used. `~1ULL` is the 64-bit word `2 ^ 64 - 2`. -/
def btbUpdate (s : CustomBP) (hp : Heap) (tid : Nat) (_branch_addr : Nat) :
    Except Fault (CustomBP × Heap) :=
  match s.globalHistory[tid]? with
  | none => .error .undefined
  | some h =>
    .ok ({ s with globalHistory :=
            s.globalHistory.set tid ((h &&& (s.historyRegisterMask &&& (2 ^ 64 - 2))) % 2 ^ 32) },
         hp)

/-- `CustomBP::update` (lines 99 to 121); `inst` and `corrTarget` are not used.
The squashed branch returns at line 108, before the `delete` of line 120. -/
def update (s : CustomBP) (hp : Heap) (tid branch_addr : Nat) (taken : Bool)
    (bp_history : Nat) (squashed : Bool) : Except Fault (CustomBP × Heap) :=
  if bp_history = 0 then
    .error .assertion
  else if squashed then
    match Heap.read hp bp_history, s.globalHistory[tid]? with
    | some history, some _ =>
      let g := ((history.globalHistory <<< 1) % 2 ^ 32) ||| taken.toNat
      .ok ({ s with globalHistory := s.globalHistory.set tid (g &&& s.historyRegisterMask) }, hp)
    | _, _ => .error .undefined
  else
    match s.globalHistory[tid]? with
    | none => .error .undefined
    | some h =>
      match s.globalCtrs[index s branch_addr h]? with
      | none => .error .undefined
      | some ctr =>
        let ctrs :=
          s.globalCtrs.set (index s branch_addr h)
            (if taken then ctr.increment else ctr.decrement)
        match Heap.free hp bp_history with
        | none => .error .undefined
        | some hp' => .ok ({ s with globalCtrs := ctrs }, hp')

/-- `CustomBP::squash` (lines 128 to 134). -/
def squash (s : CustomBP) (hp : Heap) (tid : Nat) (bp_history : Nat) :
    Except Fault (CustomBP × Heap) :=
  match Heap.read hp bp_history, s.globalHistory[tid]?, Heap.free hp bp_history with
  | some history, some _, some hp' =>
    .ok ({ s with globalHistory := s.globalHistory.set tid history.globalHistory }, hp')
  | _, _, _ => .error .undefined

/-! ## The state in which `update` stops -/

/-- `CustomBP::update` (lines 99 to 121) once more, now keeping the state in
which the call stops: the fault that ended it, if any, together with the
predictor and the free store as the statements executed up to that point have
left them. The assertion of line 101 comes before every write; the squashed
branch writes `globalHistory[tid]` in its last two statements; the other
branch writes the counter (lines 113 to 118) before the `delete` of line 120. -/
def updateStop (s : CustomBP) (hp : Heap) (tid branch_addr : Nat) (taken : Bool)
    (bp_history : Nat) (squashed : Bool) : Option Fault × CustomBP × Heap :=
  if bp_history = 0 then
    (some .assertion, s, hp)
  else if squashed then
    match Heap.read hp bp_history, s.globalHistory[tid]? with
    | some history, some _ =>
      let g := ((history.globalHistory <<< 1) % 2 ^ 32) ||| taken.toNat
      (none, { s with globalHistory := s.globalHistory.set tid (g &&& s.historyRegisterMask) }, hp)
    | _, _ => (some .undefined, s, hp)
  else
    match s.globalHistory[tid]? with
    | none => (some .undefined, s, hp)
    | some h =>
      match s.globalCtrs[index s branch_addr h]? with
      | none => (some .undefined, s, hp)
      | some ctr =>
        let ctrs :=
          s.globalCtrs.set (index s branch_addr h)
            (if taken then ctr.increment else ctr.decrement)
        match Heap.free hp bp_history with
        | none => (some .undefined, { s with globalCtrs := ctrs }, hp)
        | some hp' => (none, { s with globalCtrs := ctrs }, hp')

/-- The result of a call as `update` reports it, from the state in which the
call stopped. -/
def Stop.toExcept : Option Fault × CustomBP × Heap → Except Fault (CustomBP × Heap)
  | (none, s, hp) => .ok (s, hp)
  | (some f, _, _) => .error f

/-! ## Call sequences -/

/-- One call of a member function by the pipeline, with its arguments. -/
inductive Call where
  | lookup (tid branch_addr : Nat)
  | uncondBranch (tid pc : Nat)
  | btbUpdate (tid branch_addr : Nat)
  | update (tid branch_addr : Nat) (taken : Bool) (bp_history : Nat) (squashed : Bool)
  | squash (tid bp_history : Nat)
deriving DecidableEq

/-- The state and free store after one call, results dropped. -/
def step (s : CustomBP) (hp : Heap) : Call → Except Fault (CustomBP × Heap)
  | .lookup tid branch_addr => (lookup s hp tid branch_addr).map fun r => r.2.2
  | .uncondBranch tid pc => (uncondBranch s hp tid pc).map fun r => r.2
  | .btbUpdate tid branch_addr => btbUpdate s hp tid branch_addr
  | .update tid branch_addr taken bp_history squashed =>
    update s hp tid branch_addr taken bp_history squashed
  | .squash tid bp_history => squash s hp tid bp_history

/-- The states the predictor built from `params` can be in: the constructed
one, with an empty free store, and every state a call that returns leads to. -/
inductive Reachable (params : CustomBPParams) : CustomBP → Heap → Prop where
  | init {s : CustomBP} : construct params = .ok s → Reachable params s []
  | call {s s' : CustomBP} {hp hp' : Heap} (c : Call) :
      Reachable params s hp → step s hp c = .ok (s', hp') → Reachable params s' hp'

/-- The state and free store after a sequence of calls, made one after the
other; the first fault ends the run. -/
def run (s : CustomBP) (hp : Heap) : List Call → Except Fault (CustomBP × Heap)
  | [] => .ok (s, hp)
  | c :: cs =>
    match step s hp c with
    | .error e => .error e
    | .ok r => run r.1 r.2 cs

/-! ## The index as the specification writes it -/

/-- The specification's index `(~(shiftedAddr & history)) & mask` on unbounded
integers: of the low `historyBits` bits, exactly those that are clear in
`(branchAddress << instShiftAmt) & history`. -/
def specIndex (branchAddress instShiftAmt history historyBits : Nat) : Nat :=
  (2 ^ historyBits - 1) - (((branchAddress <<< instShiftAmt) &&& history) % 2 ^ historyBits)

/-! ## Predictor states -/

/-- A predictor state as the constructor configures it: `historyRegisterMask`
and `globalThreshold` hold the values lines 29 and 31 store (no member function
assigns them again), and every counter of the table has the width
`globalCtrBits` it was built with at line 23. The history registers and the
counter values are left free. -/
def Configured (s : CustomBP) : Prop :=
  s.historyRegisterMask = maskWord s.globalHistoryBits ∧
  s.globalThreshold = thresholdWord s.globalCtrBits ∧
  ∀ c ∈ s.globalCtrs, c.maxVal = 2 ^ s.globalCtrBits - 1

/-- The predicate `Configured` can be evaluated. -/
instance (s : CustomBP) : Decidable (Configured s) := by
  unfold Configured; infer_instance

/-- What holds in every state reachable from `construct params`: the members
copied from the parameters are unchanged, the state is `Configured`, both
vectors keep their lengths, every history register and every live record has
no bit outside `historyRegisterMask`, and no counter exceeds its clamp. -/
structure Inv (params : CustomBPParams) (s : CustomBP) (hp : Heap) : Prop where
  shift : s.instShiftAmt = params.instShiftAmt
  bits : s.globalHistoryBits = params.globalHistoryBits
  size : s.globalPredictorSize = params.globalPredictorSize
  ctrBits : s.globalCtrBits = params.globalCtrBits
  configured : Configured s
  threads : s.globalHistory.length = params.numThreads
  entries : s.globalCtrs.length = params.globalPredictorSize
  history : ∀ h ∈ s.globalHistory, h &&& s.historyRegisterMask = h
  tokens : ∀ r : BPHistory, some r ∈ hp → r.globalHistory &&& s.historyRegisterMask = r.globalHistory
  counters : ∀ c ∈ s.globalCtrs, c.counter ≤ c.maxVal

/-! ## Concrete states -/

/-- The default configuration: one thread, 6 history bits, 64 counters of 2
bits, instructions aligned to 4 bytes. -/
def demoParams : CustomBPParams :=
  { numThreads := 1, globalHistoryBits := 6, globalPredictorSize := 64, globalCtrBits := 2,
    instShiftAmt := 2 }

/-- A state of the default configuration in which the last two outcomes were
taken and counter 63 has been trained up to 3. -/
def demoState : CustomBP :=
  { instShiftAmt := 2
    globalHistory := [3]
    globalHistoryBits := 6
    globalPredictorSize := 64
    globalCtrBits := 2
    globalCtrs := List.replicate 63 { maxVal := 3, counter := 0 } ++ [{ maxVal := 3, counter := 3 }]
    historyRegisterMask := 63
    globalThreshold := 1 }

/-- The state `construct demoParams` returns. -/
def demoFresh : CustomBP :=
  { instShiftAmt := 2
    globalHistory := [0]
    globalHistoryBits := 6
    globalPredictorSize := 64
    globalCtrBits := 2
    globalCtrs := List.replicate 64 { maxVal := 3, counter := 0 }
    historyRegisterMask := 63
    globalThreshold := 1 }

/-- The state after `uncondBranch(0, 0)` on the fresh predictor. -/
def demoJumped : CustomBP :=
  { demoFresh with globalHistory := [1] }

/-- Four rounds of `lookup` and `update(taken)` for address 1 on thread 0. -/
def demoCalls : List Call :=
  [.lookup 0 1, .update 0 1 true 1 false, .lookup 0 1, .update 0 1 true 2 false,
   .lookup 0 1, .update 0 1 true 3 false, .lookup 0 1, .update 0 1 true 4 false]

/-- A configuration the constructor accepts although the table is smaller than
the index range: 6 history bits, 32 counters. -/
def smallTableParams : CustomBPParams :=
  { numThreads := 1, globalHistoryBits := 6, globalPredictorSize := 32, globalCtrBits := 2,
    instShiftAmt := 2 }

/-- The object the constructor builds when it does not end in the fatal error
(the member initialisers of lines 13 to 23 and the assignments of lines 29
and 31). -/
def fresh (params : CustomBPParams) : CustomBP :=
  { instShiftAmt := params.instShiftAmt
    globalHistory := List.replicate params.numThreads 0
    globalHistoryBits := params.globalHistoryBits
    globalPredictorSize := params.globalPredictorSize
    globalCtrBits := params.globalCtrBits
    globalCtrs :=
      List.replicate params.globalPredictorSize (SatCounter8.init params.globalCtrBits)
    historyRegisterMask := maskWord params.globalHistoryBits
    globalThreshold := thresholdWord params.globalCtrBits }

/-- The thread a call is made for. -/
def Call.tid : Call → Nat
  | .lookup tid _ => tid
  | .uncondBranch tid _ => tid
  | .btbUpdate tid _ => tid
  | .update tid _ _ _ _ => tid
  | .squash tid _ => tid

/-- The trained state with a second thread whose history is 5. -/
def demoTwoThreads : CustomBP :=
  { demoState with globalHistory := [3, 5] }

/-- A configuration whose table is larger than the index range: 6 history
bits, 128 counters. -/
def largeTableParams : CustomBPParams :=
  { numThreads := 1, globalHistoryBits := 6, globalPredictorSize := 128, globalCtrBits := 2,
    instShiftAmt := 2 }

/-! ## Arithmetic of the words -/

/-- A number from `2 ^ k` up to `2 ^ (k + 1) - 1` has bit `k` set. -/
theorem testBit_of_le_of_lt {x k : Nat} (h1 : 2 ^ k ≤ x) (h2 : x < 2 ^ (k + 1)) :
    x.testBit k = true := by
  rw [Nat.testBit_to_div_mod]
  have : x / 2 ^ k = 1 := by
    apply Nat.div_eq_of_lt_le
    · simpa using h1
    · rw [pow_succ] at h2; omega
  simp [this]

/-- The bit test `n != 0 && (n & (n - 1)) == 0` holds exactly for the powers of two. -/
theorem isPowerOf2_iff (n : Nat) : isPowerOf2 n = true ↔ ∃ k, n = 2 ^ k := by
  unfold isPowerOf2
  simp only [Bool.and_eq_true, bne_iff_ne, ne_eq, beq_iff_eq]
  constructor
  · rintro ⟨hn, hand⟩
    refine ⟨n.log2, ?_⟩
    have h1 : 2 ^ n.log2 ≤ n := Nat.log2_self_le hn
    have h2 : n < 2 ^ (n.log2 + 1) := Nat.lt_log2_self
    rcases Nat.eq_or_lt_of_le h1 with h | h
    · exact h.symm
    · exfalso
      have t1 := testBit_of_le_of_lt h1 h2
      have t2 : (n - 1).testBit n.log2 = true :=
        testBit_of_le_of_lt (by omega) (by omega)
      have t3 : (n &&& (n - 1)).testBit n.log2 = true := by
        rw [Nat.testBit_and, t1, t2]; rfl
      rw [hand] at t3
      simp at t3
  · rintro ⟨k, rfl⟩
    refine ⟨by positivity, ?_⟩
    rw [Nat.and_pow_two_sub_one_eq_mod, Nat.mod_self]

/-- Up to 32 history bits the stored mask is `2 ^ bits - 1`: nothing is cut off. -/
theorem maskWord_eq {bits : Nat} (h : bits ≤ 32) : maskWord bits = 2 ^ bits - 1 := by
  unfold maskWord mask
  apply Nat.mod_eq_of_lt
  have : 2 ^ bits ≤ 2 ^ 32 := Nat.pow_le_pow_right (by norm_num) h
  have : 0 < 2 ^ bits := by positivity
  omega

/-- For counter widths from 1 to 33 the stored threshold is `2 ^ (c - 1) - 1`. -/
theorem thresholdWord_eq {c : Nat} (h1 : 1 ≤ c) (h2 : c ≤ 33) :
    thresholdWord c = 2 ^ (c - 1) - 1 := by
  unfold thresholdWord
  interval_cases c <;> rfl

/-- Bit `i` of the specification's index: set exactly when `i` is below the
history width and bit `i` of `(a << sh) & h` is clear. -/
theorem specIndex_testBit (a sh h bits i : Nat) :
    (specIndex a sh h bits).testBit i
      = (decide (i < bits) && !(((a <<< sh) &&& h).testBit i)) := by
  unfold specIndex
  have hlt : ((a <<< sh) &&& h) % 2 ^ bits < 2 ^ bits := Nat.mod_lt _ (by positivity)
  have e : 2 ^ bits - 1 - ((a <<< sh) &&& h) % 2 ^ bits
      = 2 ^ bits - (((a <<< sh) &&& h) % 2 ^ bits + 1) := by omega
  rw [e, Nat.testBit_two_pow_sub_succ hlt, Nat.testBit_mod_two_pow]
  by_cases hi : i < bits <;> simp [hi]

/-- With the mask the constructor stores, at most 32 history bits and a shift
amount below 64, the index computed by the code is the specification's index. -/
theorem index_eq_specIndex (s : CustomBP) (a h : Nat) (hb : s.globalHistoryBits ≤ 32)
    (hm : s.historyRegisterMask = maskWord s.globalHistoryBits)
    (hsh : s.instShiftAmt < 64) :
    index s a h = specIndex a s.instShiftAmt h s.globalHistoryBits := by
  apply Nat.eq_of_testBit_eq
  intro i
  rw [specIndex_testBit]
  unfold index
  rw [hm, maskWord_eq hb, Nat.mod_eq_of_lt hsh]
  have hlt : ((a <<< s.instShiftAmt) % 2 ^ 64) &&& h < 2 ^ 64 :=
    lt_of_le_of_lt Nat.and_le_left (Nat.mod_lt _ (by positivity))
  have e : 2 ^ 64 - 1 - (((a <<< s.instShiftAmt) % 2 ^ 64) &&& h)
      = 2 ^ 64 - ((((a <<< s.instShiftAmt) % 2 ^ 64) &&& h) + 1) := by omega
  rw [e, Nat.testBit_and, Nat.testBit_mod_two_pow, Nat.testBit_two_pow_sub_succ hlt,
    Nat.testBit_two_pow_sub_one, Nat.testBit_and, Nat.testBit_mod_two_pow, Nat.testBit_and]
  by_cases hi : i < s.globalHistoryBits
  · have h32 : i < 32 := by omega
    have h64 : i < 64 := by omega
    simp [hi, h32, h64]
  · simp [hi]

/-! ## What each member function returns -/

/-- What `lookup` returns when both element accesses are in range. -/
theorem lookup_ok {s : CustomBP} {hp : Heap} {tid a h : Nat} {c : SatCounter8}
    (hh : s.globalHistory[tid]? = some h) (hc : s.globalCtrs[index s a h]? = some c) :
    lookup s hp tid a
      = .ok (decide (s.globalThreshold < c.counter), hp.length + 1,
          { s with
            globalHistory :=
              s.globalHistory.set tid
                ((((h <<< 1) % 2 ^ 32) ||| (decide (s.globalThreshold < c.counter)).toNat)
                  &&& s.historyRegisterMask) },
          hp ++ [some { globalHistory := h &&& s.historyRegisterMask }]) := by
  unfold lookup
  simp only [hh, hc, Heap.alloc]
  by_cases hp : s.globalThreshold < c.counter <;> simp [hp]

/-- A `lookup` that returns found both elements it accessed. -/
theorem lookup_inv {s s' : CustomBP} {hp hp' : Heap} {tid a tok : Nat} {p : Bool}
    (hl : lookup s hp tid a = .ok (p, tok, s', hp')) :
    ∃ h c, s.globalHistory[tid]? = some h ∧ s.globalCtrs[index s a h]? = some c := by
  unfold lookup at hl
  cases hh : s.globalHistory[tid]? with
  | none => simp [hh] at hl
  | some h =>
    cases hc : s.globalCtrs[index s a h]? with
    | none => simp [hh, hc] at hl
    | some c => exact ⟨h, c, rfl, hc⟩

/-- What `uncondBranch` returns on a valid thread. -/
theorem uncondBranch_ok {s : CustomBP} {hp : Heap} {tid pc h : Nat}
    (hh : s.globalHistory[tid]? = some h) :
    uncondBranch s hp tid pc
      = .ok (hp.length + 1,
          { s with globalHistory :=
              s.globalHistory.set tid ((((h <<< 1) % 2 ^ 32) ||| 1) &&& s.historyRegisterMask) },
          hp ++ [some { globalHistory := h &&& s.historyRegisterMask }]) := by
  unfold uncondBranch
  simp only [hh, Heap.alloc]

/-- An `uncondBranch` that returns was given a valid thread. -/
theorem uncondBranch_inv {s s' : CustomBP} {hp hp' : Heap} {tid pc tok : Nat}
    (hl : uncondBranch s hp tid pc = .ok (tok, s', hp')) :
    ∃ h, s.globalHistory[tid]? = some h := by
  unfold uncondBranch at hl
  cases hh : s.globalHistory[tid]? with
  | none => simp [hh] at hl
  | some h => exact ⟨h, rfl⟩

/-- What `btbUpdate` returns on a valid thread. -/
theorem btbUpdate_ok {s : CustomBP} {hp : Heap} {tid a h : Nat}
    (hh : s.globalHistory[tid]? = some h) :
    btbUpdate s hp tid a
      = .ok ({ s with
                globalHistory :=
                  s.globalHistory.set tid
                    ((h &&& (s.historyRegisterMask &&& (2 ^ 64 - 2))) % 2 ^ 32) }, hp) := by
  unfold btbUpdate
  simp only [hh]

/-- A `btbUpdate` that returns was given a valid thread. -/
theorem btbUpdate_inv {s s' : CustomBP} {hp hp' : Heap} {tid a : Nat}
    (hl : btbUpdate s hp tid a = .ok (s', hp')) :
    ∃ h, s.globalHistory[tid]? = some h := by
  unfold btbUpdate at hl
  cases hh : s.globalHistory[tid]? with
  | none => simp [hh] at hl
  | some h => exact ⟨h, rfl⟩

/-- What the squashed `update` returns for a live record and a valid thread. -/
theorem update_squashed_ok {s : CustomBP} {hp : Heap} {tid a tok h : Nat} {taken : Bool}
    {r : BPHistory} (hr : Heap.read hp tok = some r) (hh : s.globalHistory[tid]? = some h) :
    update s hp tid a taken tok true
      = .ok ({ s with
                globalHistory :=
                  s.globalHistory.set tid
                    ((((r.globalHistory <<< 1) % 2 ^ 32) ||| taken.toNat)
                      &&& s.historyRegisterMask) }, hp) := by
  have h0 : tok ≠ 0 := by
    intro h0; simp [Heap.read, h0] at hr
  unfold update
  simp only [h0, hr, hh, if_false, if_true]

/-- A squashed `update` that returns was given a live record and a valid thread. -/
theorem update_squashed_inv {s s' : CustomBP} {hp hp' : Heap} {tid a tok : Nat} {taken : Bool}
    (hl : update s hp tid a taken tok true = .ok (s', hp')) :
    ∃ r h, Heap.read hp tok = some r ∧ s.globalHistory[tid]? = some h := by
  unfold update at hl
  by_cases h0 : tok = 0
  · simp [h0] at hl
  · cases hr : Heap.read hp tok with
    | none => simp [h0, hr] at hl
    | some r =>
      cases hh : s.globalHistory[tid]? with
      | none => simp [h0, hr, hh] at hl
      | some h => exact ⟨r, h, rfl, rfl⟩

/-- A record that can be read can be deleted. -/
theorem free_of_read {hp : Heap} {tok : Nat} {r : BPHistory} (hr : Heap.read hp tok = some r) :
    Heap.free hp tok = some (hp.set (tok - 1) none) := by
  unfold Heap.free
  simp only [hr]

/-- Only a live record can be deleted, and deleting clears its cell. -/
theorem read_of_free {hp hp' : Heap} {tok : Nat} (hf : Heap.free hp tok = some hp') :
    ∃ r, Heap.read hp tok = some r ∧ hp' = hp.set (tok - 1) none := by
  unfold Heap.free at hf
  cases hr : Heap.read hp tok with
  | none => simp [hr] at hf
  | some r => simp [hr] at hf; exact ⟨r, rfl, hf.symm⟩

/-- What the non-squashed `update` returns for a live record when both element
accesses are in range. -/
theorem update_resolved_ok {s : CustomBP} {hp : Heap} {tid a tok h : Nat} {taken : Bool}
    {r : BPHistory} {c : SatCounter8} (hr : Heap.read hp tok = some r)
    (hh : s.globalHistory[tid]? = some h) (hc : s.globalCtrs[index s a h]? = some c) :
    update s hp tid a taken tok false
      = .ok ({ s with globalCtrs :=
                s.globalCtrs.set (index s a h) (if taken then c.increment else c.decrement) },
             hp.set (tok - 1) none) := by
  have h0 : tok ≠ 0 := by
    intro h0; simp [Heap.read, h0] at hr
  unfold update
  simp [h0, hh, hc, free_of_read hr]

/-- A non-squashed `update` that returns was given a live record and found both
elements it accessed. -/
theorem update_resolved_inv {s s' : CustomBP} {hp hp' : Heap} {tid a tok : Nat} {taken : Bool}
    (hl : update s hp tid a taken tok false = .ok (s', hp')) :
    ∃ r h c, Heap.read hp tok = some r ∧ s.globalHistory[tid]? = some h
      ∧ s.globalCtrs[index s a h]? = some c := by
  unfold update at hl
  by_cases h0 : tok = 0
  · simp [h0] at hl
  · cases hh : s.globalHistory[tid]? with
    | none => simp [h0, hh] at hl
    | some h =>
      cases hc : s.globalCtrs[index s a h]? with
      | none => simp [h0, hh, hc] at hl
      | some c =>
        cases hf : Heap.free hp tok with
        | none => simp [h0, hh, hc, hf] at hl
        | some hp1 =>
          obtain ⟨r, hr, -⟩ := read_of_free hf
          exact ⟨r, h, c, hr, rfl, hc⟩

/-- What `squash` returns for a live record and a valid thread. -/
theorem squash_ok {s : CustomBP} {hp : Heap} {tid tok h : Nat} {r : BPHistory}
    (hr : Heap.read hp tok = some r) (hh : s.globalHistory[tid]? = some h) :
    squash s hp tid tok
      = .ok ({ s with globalHistory := s.globalHistory.set tid r.globalHistory },
             hp.set (tok - 1) none) := by
  unfold squash
  simp only [hr, hh, free_of_read hr]

/-- A `squash` that returns was given a live record and a valid thread. -/
theorem squash_inv {s s' : CustomBP} {hp hp' : Heap} {tid tok : Nat}
    (hl : squash s hp tid tok = .ok (s', hp')) :
    ∃ r h, Heap.read hp tok = some r ∧ s.globalHistory[tid]? = some h := by
  unfold squash at hl
  cases hr : Heap.read hp tok with
  | none => simp [hr] at hl
  | some r =>
    cases hh : s.globalHistory[tid]? with
    | none => simp [hr, hh] at hl
    | some h => exact ⟨r, h, rfl, rfl⟩

/-! ## Reachable states -/

/-- Masking twice is masking once. -/
theorem and_mask_idem (x m : Nat) : (x &&& m) &&& m = x &&& m := by
  rw [Nat.and_assoc, Nat.and_self]

/-- The value `btbUpdate` stores has no bit outside the mask. -/
theorem btb_and_mask (h m : Nat) :
    ((h &&& (m &&& (2 ^ 64 - 2))) % 2 ^ 32) &&& m = (h &&& (m &&& (2 ^ 64 - 2))) % 2 ^ 32 := by
  apply Nat.eq_of_testBit_eq
  intro i
  simp only [Nat.testBit_and, Nat.testBit_mod_two_pow]
  cases m.testBit i <;> simp

/-- A property of all elements survives overwriting one element by a value that has it. -/
theorem forall_mem_set {α : Type} {P : α → Prop} {l : List α} {i : Nat} {v : α}
    (hl : ∀ x ∈ l, P x) (hv : P v) : ∀ x ∈ l.set i v, P x := by
  intro x hx
  rcases List.mem_or_eq_of_mem_set hx with h | h
  · exact hl x h
  · exact h ▸ hv

/-- A record that can be read is a live cell of the free store. -/
theorem read_mem {hp : Heap} {tok : Nat} {r : BPHistory} (hr : Heap.read hp tok = some r) :
    some r ∈ hp := by
  unfold Heap.read at hr
  by_cases h0 : tok = 0
  · simp [h0] at hr
  · simp only [h0, if_false] at hr
    cases hg : hp[tok - 1]? with
    | none => simp [hg] at hr
    | some o =>
      rw [hg] at hr
      simp at hr
      subst hr
      exact List.getElem?_mem hg

/-- Allocating a masked snapshot keeps all live records inside the mask. -/
theorem tokens_alloc {hp : Heap} {m h : Nat}
    (ht : ∀ r : BPHistory, some r ∈ hp → r.globalHistory &&& m = r.globalHistory) :
    ∀ r : BPHistory, some r ∈ hp ++ [some { globalHistory := h &&& m }] →
      r.globalHistory &&& m = r.globalHistory := by
  intro r hr
  rcases List.mem_append.mp hr with h1 | h1
  · exact ht r h1
  · simp at h1
    subst h1
    exact and_mask_idem h m

/-- Deleting a record keeps all live records inside the mask. -/
theorem tokens_free {hp : Heap} {m i : Nat}
    (ht : ∀ r : BPHistory, some r ∈ hp → r.globalHistory &&& m = r.globalHistory) :
    ∀ r : BPHistory, some r ∈ hp.set i none → r.globalHistory &&& m = r.globalHistory := by
  intro r hr
  rcases List.mem_or_eq_of_mem_set hr with h1 | h1
  · exact ht r h1
  · simp at h1

/-- The constructed state, with the empty free store, satisfies the invariant. -/
theorem construct_inv {params : CustomBPParams} {s : CustomBP}
    (hc : construct params = .ok s) : Inv params s [] := by
  unfold construct at hc
  by_cases hp : isPowerOf2 params.globalPredictorSize = true
  · simp only [hp, Bool.not_true, Bool.false_eq_true, if_false, Except.ok.injEq] at hc
    subst hc
    refine ⟨rfl, rfl, rfl, rfl, ⟨rfl, rfl, ?_⟩, by simp, by simp, ?_, by simp, ?_⟩
    · intro c hc
      rw [(List.mem_replicate.mp hc).2]; rfl
    · intro h hh
      rw [(List.mem_replicate.mp hh).2]; simp
    · intro c hc
      rw [(List.mem_replicate.mp hc).2]; simp [SatCounter8.init]
  · simp [hp] at hc

/-- Every call that returns preserves the invariant. -/
theorem step_inv {params : CustomBPParams} {s s' : CustomBP} {hp hp' : Heap} (c : Call)
    (hi : Inv params s hp) (hs : step s hp c = .ok (s', hp')) : Inv params s' hp' := by
  obtain ⟨h1, h2, h3, h4, ⟨c1, c2, c3⟩, h6, h7, h8, h9, h10⟩ := hi
  cases c with
  | lookup tid a =>
    simp only [step] at hs
    cases hl : lookup s hp tid a with
    | error e => simp [hl, Except.map] at hs
    | ok r =>
      obtain ⟨p, tok, s1, hp1⟩ := r
      obtain ⟨h, c, hh, hc⟩ := lookup_inv hl
      rw [hl] at hs
      rw [lookup_ok hh hc] at hl
      simp only [Except.map, Except.ok.injEq, Prod.mk.injEq] at hs hl
      obtain ⟨rfl, rfl⟩ := hs
      obtain ⟨-, -, rfl, rfl⟩ := hl
      exact ⟨h1, h2, h3, h4, ⟨c1, c2, c3⟩, by simpa using h6, h7,
        forall_mem_set h8 (and_mask_idem _ _), tokens_alloc h9, h10⟩
  | uncondBranch tid pc =>
    simp only [step] at hs
    cases hl : uncondBranch s hp tid pc with
    | error e => simp [hl, Except.map] at hs
    | ok r =>
      obtain ⟨tok, s1, hp1⟩ := r
      obtain ⟨h, hh⟩ := uncondBranch_inv hl
      rw [hl] at hs
      rw [uncondBranch_ok hh] at hl
      simp only [Except.map, Except.ok.injEq, Prod.mk.injEq] at hs hl
      obtain ⟨rfl, rfl⟩ := hs
      obtain ⟨-, rfl, rfl⟩ := hl
      exact ⟨h1, h2, h3, h4, ⟨c1, c2, c3⟩, by simpa using h6, h7,
        forall_mem_set h8 (and_mask_idem _ _), tokens_alloc h9, h10⟩
  | btbUpdate tid a =>
    simp only [step] at hs
    obtain ⟨h, hh⟩ := btbUpdate_inv hs
    rw [btbUpdate_ok hh] at hs
    simp only [Except.ok.injEq, Prod.mk.injEq] at hs
    obtain ⟨rfl, rfl⟩ := hs
    exact ⟨h1, h2, h3, h4, ⟨c1, c2, c3⟩, by simpa using h6, h7,
      forall_mem_set h8 (btb_and_mask _ _), h9, h10⟩
  | update tid a taken tok squashed =>
    simp only [step] at hs
    cases squashed with
    | true =>
      obtain ⟨r, h, hr, hh⟩ := update_squashed_inv hs
      rw [update_squashed_ok hr hh] at hs
      simp only [Except.ok.injEq, Prod.mk.injEq] at hs
      obtain ⟨rfl, rfl⟩ := hs
      exact ⟨h1, h2, h3, h4, ⟨c1, c2, c3⟩, by simpa using h6, h7,
        forall_mem_set h8 (and_mask_idem _ _), h9, h10⟩
    | false =>
      obtain ⟨r, h, c, hr, hh, hc⟩ := update_resolved_inv hs
      rw [update_resolved_ok hr hh hc] at hs
      simp only [Except.ok.injEq, Prod.mk.injEq] at hs
      obtain ⟨rfl, rfl⟩ := hs
      have hcm := List.getElem?_mem hc
      refine ⟨h1, h2, h3, h4, ⟨c1, c2, ?_⟩, h6, by simpa using h7, h8, tokens_free h9, ?_⟩
      · refine forall_mem_set c3 ?_
        cases taken <;> simpa [SatCounter8.increment, SatCounter8.decrement] using c3 c hcm
      · refine forall_mem_set h10 ?_
        have := h10 c hcm
        cases taken
        · simp only [SatCounter8.decrement, Bool.false_eq_true, if_false]; omega
        · simp only [SatCounter8.increment, if_true]; omega
  | squash tid tok =>
    simp only [step] at hs
    obtain ⟨r, h, hr, hh⟩ := squash_inv hs
    rw [squash_ok hr hh] at hs
    simp only [Except.ok.injEq, Prod.mk.injEq] at hs
    obtain ⟨rfl, rfl⟩ := hs
    exact ⟨h1, h2, h3, h4, ⟨c1, c2, c3⟩, by simpa using h6, h7,
      forall_mem_set h8 (h9 r (read_mem hr)), tokens_free h9, h10⟩

/-- Every reachable state satisfies the invariant. -/
theorem reachable_inv {params : CustomBPParams} {s : CustomBP} {hp : Heap}
    (hr : Reachable params s hp) : Inv params s hp := by
  induction hr with
  | init hc => exact construct_inv hc
  | call c _ hs ih => exact step_inv c ih hs

/-! ## Further facts about lists, the free store and the shift register -/

/-- Under a mask of at most 32 bits the cut of the shifted register to 32 bits
does not show. -/
theorem shiftIn_low_bits (h bits : Nat) (b : Bool) (hb : bits ≤ 32) :
    ((((h <<< 1) % 2 ^ 32) ||| b.toNat) &&& (2 ^ bits - 1))
      = (((h <<< 1) ||| b.toNat) &&& (2 ^ bits - 1)) := by
  apply Nat.eq_of_testBit_eq
  intro i
  simp only [Nat.testBit_and, Nat.testBit_or, Nat.testBit_mod_two_pow,
    Nat.testBit_two_pow_sub_one]
  by_cases hi : i < bits
  · have h32 : i < 32 := by omega
    simp [hi, h32]
  · simp [hi]

/-- The pointer `new` returns addresses the record just stored. -/
theorem read_alloc (hp : Heap) (r : BPHistory) :
    Heap.read (hp ++ [some r]) (hp.length + 1) = some r := by
  unfold Heap.read
  simp

/-- Overwriting an element by itself changes nothing. -/
theorem set_same {α : Type} {l : List α} {i : Nat} {v : α} (h : l[i]? = some v) :
    l.set i v = l := by
  apply List.ext_getElem?
  intro j
  rw [List.getElem?_set]
  by_cases hij : i = j
  · subst hij
    obtain ⟨hlt, -⟩ := List.getElem?_eq_some.mp h
    simp [hlt, h]
  · simp [hij]

/-- Reading back an element that was just written, at a valid position. -/
theorem getElem?_set_same {α : Type} {l : List α} {i : Nat} {v w : α} (h : l[i]? = some v) :
    (l.set i w)[i]? = some w := by
  obtain ⟨hlt, -⟩ := List.getElem?_eq_some.mp h
  simp [hlt]

/-- The state after one unconditional branch on the fresh default predictor is reachable. -/
theorem demo_reachable : Reachable demoParams demoJumped [some { globalHistory := 0 }] :=
  Reachable.call (Call.uncondBranch 0 0) (Reachable.init (s := demoFresh) rfl) rfl

/-- A run of calls from a reachable state ends in a reachable state. -/
theorem run_reachable {params : CustomBPParams} {s s' : CustomBP} {hp hp' : Heap}
    (cs : List Call) (hr : Reachable params s hp) (h : run s hp cs = .ok (s', hp')) :
    Reachable params s' hp' := by
  induction cs generalizing s hp with
  | nil =>
    simp only [run, Except.ok.injEq, Prod.mk.injEq] at h
    obtain ⟨rfl, rfl⟩ := h
    exact hr
  | cons c cs ih =>
    simp only [run] at h
    cases hs : step s hp c with
    | error e => simp [hs] at h
    | ok r =>
      rw [hs] at h
      exact ih (Reachable.call c hr hs) h

/-! ## The claims -/

/-- The guard of the constructor: it returns exactly when `globalPredictorSize`
is a power of two, whatever `globalHistoryBits` is, and then the table has
`globalPredictorSize` entries; it ends in the fatal configuration error
exactly when `globalPredictorSize` is no power of two. -/
theorem construct_succeeds_iff_size_power_of_two (params : CustomBPParams) :
    ((∃ s, construct params = .ok s ∧ s.globalCtrs.length = params.globalPredictorSize
          ∧ s.globalHistoryBits = params.globalHistoryBits)
        ↔ ∃ k, params.globalPredictorSize = 2 ^ k) ∧
    (construct params = .error .fatal ↔ ¬ ∃ k, params.globalPredictorSize = 2 ^ k) := by
  rw [← isPowerOf2_iff]
  unfold construct
  by_cases hp : isPowerOf2 params.globalPredictorSize = true
  · simp [hp]
  · simp [hp]

/-- C1 fails as stated: with 6 history bits a table of 128 entries, which is not
`2 ^ 6`, is accepted by the constructor. -/
theorem construct_accepts_128_entries_with_6_history_bits :
    (128 : Nat) ≠ 2 ^ 6 ∧
    ∃ s, construct { numThreads := 1, globalHistoryBits := 6, globalPredictorSize := 128,
                     globalCtrBits := 2, instShiftAmt := 2 } = .ok s :=
  ⟨by decide, _, rfl⟩

/-- C2: in a configured state with at most 32 history bits, a shift amount
below 64 (the width of the shifted address) and a counter width from 1 to 33,
`lookup` on a valid thread whose counter access is in range returns, and its
prediction is taken exactly when the counter at the specification's index,
computed from the history value before the call, is strictly greater than
`2 ^ (globalCtrBits - 1) - 1`. -/
theorem lookup_taken_iff_counter_above_threshold (s : CustomBP) (hp : Heap)
    (tid branchAddress h : Nat) (c : SatCounter8)
    (hs : Configured s) (hbits : s.globalHistoryBits ≤ 32) (hshift : s.instShiftAmt < 64)
    (hc1 : 1 ≤ s.globalCtrBits) (hc2 : s.globalCtrBits ≤ 33)
    (hh : s.globalHistory[tid]? = some h)
    (hc : s.globalCtrs[specIndex branchAddress s.instShiftAmt h s.globalHistoryBits]?
            = some c) :
    ∃ tok s' hp', lookup s hp tid branchAddress
      = .ok (decide (2 ^ (s.globalCtrBits - 1) - 1 < c.counter), tok, s', hp') := by
  rw [← index_eq_specIndex s branchAddress h hbits hs.1 hshift] at hc
  rw [lookup_ok hh hc, hs.2.1, thresholdWord_eq hc1 hc2]
  exact ⟨_, _, _, rfl⟩

/-- C2 at the trained state: history 3, address 1, counter 63 holds 3, so the
prediction is taken. -/
theorem lookup_taken_iff_counter_above_threshold_witness :
    ∃ tok s' hp', lookup demoState [] 0 1 = .ok (decide (2 ^ (2 - 1) - 1 < 3), tok, s', hp') :=
  lookup_taken_iff_counter_above_threshold demoState [] 0 1 3 { maxVal := 3, counter := 3 }
    (by decide) (by decide) (by decide) (by decide) (by decide) rfl rfl

/-- C3: in a reachable state of a configuration with at most 32 history bits,
`lookup` on a valid thread whose counter access is in range returns a
prediction `p` and a token, leaves `globalHistory[tid]` equal to
`((h << 1) | p) & (2 ^ globalHistoryBits - 1)` for the value `h` before the
call, and the record the token addresses holds exactly `h`. -/
theorem lookup_shifts_prediction_into_history (params : CustomBPParams) (s : CustomBP)
    (hp : Heap) (tid branchAddress h : Nat) (c : SatCounter8)
    (hr : Reachable params s hp) (hbits : s.globalHistoryBits ≤ 32)
    (hh : s.globalHistory[tid]? = some h)
    (hc : s.globalCtrs[index s branchAddress h]? = some c) :
    ∃ p tok s' hp', lookup s hp tid branchAddress = .ok (p, tok, s', hp') ∧
      s'.globalHistory[tid]?
        = some (((h <<< 1) ||| p.toNat) &&& (2 ^ s.globalHistoryBits - 1)) ∧
      Heap.read hp' tok = some { globalHistory := h } := by
  have hi := reachable_inv hr
  refine ⟨_, _, _, _, lookup_ok hh hc, ?_, ?_⟩
  · simp only
    rw [getElem?_set_same hh, hi.configured.1, maskWord_eq hbits, shiftIn_low_bits _ _ _ hbits]
  · rw [read_alloc, hi.history h (List.getElem?_mem hh)]

/-- C3 after one unconditional branch on the fresh default predictor. -/
theorem lookup_shifts_prediction_into_history_witness :
    ∃ p tok s' hp', lookup demoJumped [some { globalHistory := 0 }] 0 4096
        = .ok (p, tok, s', hp') ∧
      s'.globalHistory[0]? = some (((1 <<< 1) ||| p.toNat) &&& (2 ^ 6 - 1)) ∧
      Heap.read hp' tok = some { globalHistory := 1 } :=
  lookup_shifts_prediction_into_history demoParams demoJumped _ 0 4096 1
    { maxVal := 3, counter := 0 } demo_reachable (by decide) rfl rfl

/-- C4: in a configured state with at most 32 history bits and a shift amount
below 64 (the width of the shifted address), `update` with `squashed = false`,
a token that addresses a live record, a valid thread and the counter access
in range returns; the counter at the specification's index,
computed from the current history register, goes from `c` to
`min (c + 1) (2 ^ globalCtrBits - 1)` when `taken` and to `max (c - 1) 0`
otherwise; every other counter and every history register is unchanged. -/
theorem update_resolved_trains_indexed_counter (s : CustomBP) (hp : Heap)
    (tid branchAddress tok h : Nat) (taken : Bool) (r : BPHistory) (c : SatCounter8)
    (hs : Configured s) (hbits : s.globalHistoryBits ≤ 32) (hshift : s.instShiftAmt < 64)
    (htok : Heap.read hp tok = some r)
    (hh : s.globalHistory[tid]? = some h)
    (hc : s.globalCtrs[specIndex branchAddress s.instShiftAmt h s.globalHistoryBits]?
            = some c) :
    ∃ s' hp' c', update s hp tid branchAddress taken tok false = .ok (s', hp') ∧
      s'.globalCtrs[specIndex branchAddress s.instShiftAmt h s.globalHistoryBits]? = some c' ∧
      (taken = true → c'.counter = min (c.counter + 1) (2 ^ s.globalCtrBits - 1)) ∧
      (taken = false → (c'.counter : Int) = max ((c.counter : Int) - 1) 0) ∧
      (∀ j, j ≠ specIndex branchAddress s.instShiftAmt h s.globalHistoryBits →
        s'.globalCtrs[j]? = s.globalCtrs[j]?) ∧
      s'.globalHistory = s.globalHistory := by
  have hm := hs.2.2 c (List.getElem?_mem hc)
  have hc' := hc
  rw [← index_eq_specIndex s branchAddress h hbits hs.1 hshift] at hc' ⊢
  refine ⟨_, _, _, update_resolved_ok htok hh hc', getElem?_set_same hc', ?_, ?_, ?_, rfl⟩
  · intro ht
    simp [ht, SatCounter8.increment, hm]
  · intro ht
    simp only [ht, SatCounter8.decrement, Bool.false_eq_true, if_false]
    omega
  · intro j hj
    simp only
    rw [List.getElem?_set_ne (Ne.symm hj)]

/-- C4 at the trained state: resolving taken keeps counter 63 at 3, the clamp. -/
theorem update_resolved_trains_indexed_counter_witness :
    ∃ s' hp' c', update demoState [some { globalHistory := 1 }] 0 1 true 1 false = .ok (s', hp') ∧
      s'.globalCtrs[specIndex 1 2 3 6]? = some c' ∧
      (true = true → c'.counter = min (3 + 1) (2 ^ 2 - 1)) ∧
      (true = false → (c'.counter : Int) = max (((3 : Nat) : Int) - 1) 0) ∧
      (∀ j, j ≠ specIndex 1 2 3 6 → s'.globalCtrs[j]? = demoState.globalCtrs[j]?) ∧
      s'.globalHistory = demoState.globalHistory :=
  update_resolved_trains_indexed_counter demoState [some { globalHistory := 1 }] 0 1 1 3 true
    { globalHistory := 1 } { maxVal := 3, counter := 3 } (by decide) (by decide) (by decide)
    rfl rfl rfl

/-- C5: in a configured state with at most 32 history bits, `update` with
`squashed = true`, a token whose record holds `snapshot` and a valid thread
returns, sets `globalHistory[tid]` to
`((snapshot << 1) | taken) & (2 ^ globalHistoryBits - 1)`, whatever the register
held before, and leaves the counter table as it was. -/
theorem update_squashed_rebuilds_history (s : CustomBP) (hp : Heap)
    (tid branchAddress tok snapshot h : Nat) (taken : Bool)
    (hs : Configured s) (hbits : s.globalHistoryBits ≤ 32)
    (htok : Heap.read hp tok = some { globalHistory := snapshot })
    (hh : s.globalHistory[tid]? = some h) :
    ∃ s' hp', update s hp tid branchAddress taken tok true = .ok (s', hp') ∧
      s'.globalHistory[tid]?
        = some (((snapshot <<< 1) ||| taken.toNat) &&& (2 ^ s.globalHistoryBits - 1)) ∧
      s'.globalCtrs = s.globalCtrs := by
  refine ⟨_, _, update_squashed_ok htok hh, ?_, rfl⟩
  simp only
  rw [getElem?_set_same hh, hs.1, maskWord_eq hbits, shiftIn_low_bits _ _ _ hbits]

/-- C5 at the trained state, with a token that captured history 5. -/
theorem update_squashed_rebuilds_history_witness :
    ∃ s' hp', update demoState [some { globalHistory := 5 }] 0 1 true 1 true = .ok (s', hp') ∧
      s'.globalHistory[0]? = some (((5 <<< 1) ||| true.toNat) &&& (2 ^ 6 - 1)) ∧
      s'.globalCtrs = demoState.globalCtrs :=
  update_squashed_rebuilds_history demoState [some { globalHistory := 5 }] 0 1 1 5 3 true
    (by decide) (by decide) rfl rfl

/-- C6: in a reachable state, on a valid thread, `lookup` (when its counter
access is in range) followed at once by `squash` with the token `lookup`
returned both return, and leave `globalHistory[tid]`, indeed the whole
predictor state, as it was before the `lookup`; the same holds for
`uncondBranch` followed by `squash`. -/
theorem squash_after_lookup_restores_history (params : CustomBPParams) (s : CustomBP)
    (hp : Heap) (tid branchAddress pc h : Nat)
    (hr : Reachable params s hp)
    (hh : s.globalHistory[tid]? = some h) :
    (index s branchAddress h < s.globalCtrs.length →
      ∃ p tok s1 hp1 s2 hp2, lookup s hp tid branchAddress = .ok (p, tok, s1, hp1) ∧
        squash s1 hp1 tid tok = .ok (s2, hp2) ∧ s2.globalHistory[tid]? = some h ∧ s2 = s) ∧
    (∃ tok s1 hp1 s2 hp2, uncondBranch s hp tid pc = .ok (tok, s1, hp1) ∧
      squash s1 hp1 tid tok = .ok (s2, hp2) ∧ s2.globalHistory[tid]? = some h ∧ s2 = s) := by
  have hi := reachable_inv hr
  have hm := hi.history h (List.getElem?_mem hh)
  constructor
  · intro hlt
    have hc : s.globalCtrs[index s branchAddress h]?
        = some (s.globalCtrs.get ⟨index s branchAddress h, hlt⟩) :=
      List.getElem?_eq_getElem hlt
    refine ⟨_, _, _, _, _, _, lookup_ok hh hc,
      squash_ok (read_alloc _ _) (getElem?_set_same hh), ?_, ?_⟩
    · simp only
      rw [getElem?_set_same (getElem?_set_same hh), hm]
    · simp only [List.set_set, hm, set_same hh]
  · refine ⟨_, _, _, _, _, uncondBranch_ok hh,
      squash_ok (read_alloc _ _) (getElem?_set_same hh), ?_, ?_⟩
    · simp only
      rw [getElem?_set_same (getElem?_set_same hh), hm]
    · simp only [List.set_set, hm, set_same hh]

/-- C6 after one unconditional branch on the fresh default predictor. -/
theorem squash_after_lookup_restores_history_witness :
    (∃ p tok s1 hp1 s2 hp2,
      lookup demoJumped [some { globalHistory := 0 }] 0 4096 = .ok (p, tok, s1, hp1) ∧
      squash s1 hp1 0 tok = .ok (s2, hp2) ∧ s2.globalHistory[0]? = some 1 ∧ s2 = demoJumped) ∧
    (∃ tok s1 hp1 s2 hp2,
      uncondBranch demoJumped [some { globalHistory := 0 }] 0 8 = .ok (tok, s1, hp1) ∧
      squash s1 hp1 0 tok = .ok (s2, hp2) ∧ s2.globalHistory[0]? = some 1 ∧ s2 = demoJumped) :=
  ⟨(squash_after_lookup_restores_history demoParams demoJumped _ 0 4096 8 1
      demo_reachable rfl).1 (by decide),
   (squash_after_lookup_restores_history demoParams demoJumped _ 0 4096 8 1
      demo_reachable rfl).2⟩

/-- C7: whenever two consecutive `lookup` calls on a thread return, with tokens
`t1` and then `t2`, `squash` with `t2` returns and leaves `globalHistory[tid]`,
indeed the whole predictor state, as it was right after the first `lookup`:
the bit the first prediction shifted in stays, only the second is undone. -/
theorem squash_second_lookup_keeps_first (s s1 s2 : CustomBP) (hp hp1 hp2 : Heap)
    (tid a1 a2 t1 t2 : Nat) (p1 p2 : Bool)
    (hl1 : lookup s hp tid a1 = .ok (p1, t1, s1, hp1))
    (hl2 : lookup s1 hp1 tid a2 = .ok (p2, t2, s2, hp2)) :
    ∃ s3 hp3 h h1, squash s2 hp2 tid t2 = .ok (s3, hp3) ∧
      s.globalHistory[tid]? = some h ∧
      h1 = (((h <<< 1) % 2 ^ 32) ||| p1.toNat) &&& s.historyRegisterMask ∧
      s1.globalHistory[tid]? = some h1 ∧
      s3.globalHistory[tid]? = some h1 ∧ s3 = s1 := by
  obtain ⟨h, c, hh, hc⟩ := lookup_inv hl1
  rw [lookup_ok hh hc] at hl1
  simp only [Except.ok.injEq, Prod.mk.injEq] at hl1
  obtain ⟨rfl, rfl, rfl, rfl⟩ := hl1
  have hh1 := getElem?_set_same (w := (((h <<< 1) % 2 ^ 32)
    ||| (decide (s.globalThreshold < c.counter)).toNat) &&& s.historyRegisterMask) hh
  obtain ⟨h', c', hh', hc'⟩ := lookup_inv hl2
  rw [lookup_ok hh' hc'] at hl2
  simp only [Except.ok.injEq, Prod.mk.injEq] at hl2
  obtain ⟨rfl, rfl, rfl, rfl⟩ := hl2
  simp only at hh'
  rw [hh1] at hh'
  cases hh'
  refine ⟨_, _, h, _, squash_ok (read_alloc _ _) (getElem?_set_same hh1), hh, rfl, hh1, ?_, ?_⟩
  · simp only
    rw [getElem?_set_same (getElem?_set_same hh1), and_mask_idem]
  · simp only [List.set_set, and_mask_idem]

/-- C7 on the trained state: two lookups, then the second is squashed. -/
theorem squash_second_lookup_keeps_first_witness :
    ∃ s3 hp3 h h1,
      squash { demoState with globalHistory := [15] }
          [some { globalHistory := 3 }, some { globalHistory := 7 }] 0 2 = .ok (s3, hp3) ∧
      demoState.globalHistory[0]? = some h ∧
      h1 = (((h <<< 1) % 2 ^ 32) ||| true.toNat) &&& demoState.historyRegisterMask ∧
      ({ demoState with globalHistory := [7] } : CustomBP).globalHistory[0]? = some h1 ∧
      s3.globalHistory[0]? = some h1 ∧ s3 = { demoState with globalHistory := [7] } :=
  squash_second_lookup_keeps_first demoState { demoState with globalHistory := [7] }
    { demoState with globalHistory := [15] } [] [some { globalHistory := 3 }]
    [some { globalHistory := 3 }, some { globalHistory := 7 }] 0 1 2 1 2 true true rfl rfl

/-- C8: in every state a freshly constructed predictor reaches by any sequence
of `lookup`, `uncondBranch`, `btbUpdate`, `update` and `squash` calls, every
counter of the table lies between 0 and `2 ^ globalCtrBits - 1`; whatever
further `update` is made, taken or not, the bounds still hold afterwards. -/
theorem counters_stay_within_width (params : CustomBPParams) (s0 s : CustomBP) (hp : Heap)
    (calls : List Call)
    (hc : construct params = .ok s0) (hrun : run s0 [] calls = .ok (s, hp)) :
    (∀ c ∈ s.globalCtrs, 0 ≤ c.counter ∧ c.counter ≤ 2 ^ params.globalCtrBits - 1) ∧
    (∀ tid a taken tok sq s' hp', update s hp tid a taken tok sq = .ok (s', hp') →
      ∀ c ∈ s'.globalCtrs, 0 ≤ c.counter ∧ c.counter ≤ 2 ^ params.globalCtrBits - 1) := by
  have hr := run_reachable calls (Reachable.init hc) hrun
  have key : ∀ (s : CustomBP) (hp : Heap), Reachable params s hp →
      ∀ c ∈ s.globalCtrs, 0 ≤ c.counter ∧ c.counter ≤ 2 ^ params.globalCtrBits - 1 := by
    intro s hp hr c hc
    have hi := reachable_inv hr
    have h1 := hi.counters c hc
    have h2 := hi.configured.2.2 c hc
    rw [hi.ctrBits] at h2
    exact ⟨Nat.zero_le _, by omega⟩
  refine ⟨key s hp hr, ?_⟩
  intro tid a taken tok sq s' hp' hu
  exact key s' hp' (Reachable.call (Call.update tid a taken tok sq) hr hu)

/-- C8 on the default configuration: after four taken resolutions of the same
branch the counter it trains sits at 3 and a fifth leaves it there. -/
theorem counters_stay_within_width_witness :
    (∀ c ∈ demoState.globalCtrs, 0 ≤ c.counter ∧ c.counter ≤ 2 ^ 2 - 1) ∧
    (∀ tid a taken tok sq s' hp',
      update demoState [none, none, none, none] tid a taken tok sq = .ok (s', hp') →
      ∀ c ∈ s'.globalCtrs, 0 ≤ c.counter ∧ c.counter ≤ 2 ^ 2 - 1) :=
  counters_stay_within_width demoParams demoFresh demoState [none, none, none, none] demoCalls
    rfl rfl

/-- C9: whenever it returns, each of `lookup`, `uncondBranch`, `btbUpdate`,
`squash` and `update` with `squashed = true` leaves the counter table exactly
as it was. -/
theorem counter_table_untouched_outside_resolution (s : CustomBP) (hp : Heap) :
    (∀ tid a p tok s' hp', lookup s hp tid a = .ok (p, tok, s', hp') →
      s'.globalCtrs = s.globalCtrs) ∧
    (∀ tid pc tok s' hp', uncondBranch s hp tid pc = .ok (tok, s', hp') →
      s'.globalCtrs = s.globalCtrs) ∧
    (∀ tid a s' hp', btbUpdate s hp tid a = .ok (s', hp') → s'.globalCtrs = s.globalCtrs) ∧
    (∀ tid tok s' hp', squash s hp tid tok = .ok (s', hp') → s'.globalCtrs = s.globalCtrs) ∧
    (∀ tid a taken tok s' hp', update s hp tid a taken tok true = .ok (s', hp') →
      s'.globalCtrs = s.globalCtrs) := by
  refine ⟨?_, ?_, ?_, ?_, ?_⟩
  · intro tid a p tok s' hp' hl
    obtain ⟨h, c, hh, hc⟩ := lookup_inv hl
    rw [lookup_ok hh hc] at hl
    simp only [Except.ok.injEq, Prod.mk.injEq] at hl
    obtain ⟨-, -, rfl, -⟩ := hl
    rfl
  · intro tid pc tok s' hp' hl
    obtain ⟨h, hh⟩ := uncondBranch_inv hl
    rw [uncondBranch_ok hh] at hl
    simp only [Except.ok.injEq, Prod.mk.injEq] at hl
    obtain ⟨-, rfl, -⟩ := hl
    rfl
  · intro tid a s' hp' hl
    obtain ⟨h, hh⟩ := btbUpdate_inv hl
    rw [btbUpdate_ok hh] at hl
    simp only [Except.ok.injEq, Prod.mk.injEq] at hl
    obtain ⟨rfl, -⟩ := hl
    rfl
  · intro tid tok s' hp' hl
    obtain ⟨r, h, hr, hh⟩ := squash_inv hl
    rw [squash_ok hr hh] at hl
    simp only [Except.ok.injEq, Prod.mk.injEq] at hl
    obtain ⟨rfl, -⟩ := hl
    rfl
  · intro tid a taken tok s' hp' hl
    obtain ⟨r, h, hr, hh⟩ := update_squashed_inv hl
    rw [update_squashed_ok hr hh] at hl
    simp only [Except.ok.injEq, Prod.mk.injEq] at hl
    obtain ⟨rfl, -⟩ := hl
    rfl

/-- C9 on the trained state: a `lookup` that returns, and a squashed `update`
that returns, both with the table of the trained state in their result. -/
theorem counter_table_untouched_outside_resolution_witness :
    (lookup demoState [] 0 1
        = .ok (true, 1, { demoState with globalHistory := [7] }, [some { globalHistory := 3 }])
      ∧ ({ demoState with globalHistory := [7] } : CustomBP).globalCtrs = demoState.globalCtrs) ∧
    (update demoState [some { globalHistory := 5 }] 0 1 false 1 true
        = .ok ({ demoState with globalHistory := [10] }, [some { globalHistory := 5 }])
      ∧ ({ demoState with globalHistory := [10] } : CustomBP).globalCtrs
          = demoState.globalCtrs) :=
  ⟨⟨rfl, (counter_table_untouched_outside_resolution demoState []).1 0 1 true 1 _ _ rfl⟩,
   ⟨rfl, (counter_table_untouched_outside_resolution demoState
      [some { globalHistory := 5 }]).2.2.2.2 0 1 false 1 _ _ rfl⟩⟩

/-- C10: in a reachable state of a configuration with at most 32 history bits,
`uncondBranch` on a valid thread returns a token, leaves `globalHistory[tid]`
equal to `((h << 1) | 1) & (2 ^ globalHistoryBits - 1)` for the value `h` before
the call, the record the token addresses holds exactly `h`, the counter table
is unchanged, and with any other counter table in place the call returns the
same token, history and free store: the table is not read. -/
theorem uncondBranch_shifts_one_into_history (params : CustomBPParams) (s : CustomBP)
    (hp : Heap) (tid pc h : Nat)
    (hr : Reachable params s hp) (hbits : s.globalHistoryBits ≤ 32)
    (hh : s.globalHistory[tid]? = some h) :
    ∃ tok s' hp', uncondBranch s hp tid pc = .ok (tok, s', hp') ∧
      s'.globalHistory[tid]? = some (((h <<< 1) ||| 1) &&& (2 ^ s.globalHistoryBits - 1)) ∧
      Heap.read hp' tok = some { globalHistory := h } ∧
      s'.globalCtrs = s.globalCtrs ∧
      ∀ ctrs, uncondBranch { s with globalCtrs := ctrs } hp tid pc
        = .ok (tok, { s' with globalCtrs := ctrs }, hp') := by
  have hi := reachable_inv hr
  refine ⟨_, _, _, uncondBranch_ok hh, ?_, ?_, rfl, ?_⟩
  · simp only
    rw [getElem?_set_same hh, hi.configured.1, maskWord_eq hbits]
    exact congrArg some (shiftIn_low_bits h _ true hbits)
  · rw [read_alloc, hi.history h (List.getElem?_mem hh)]
  · intro ctrs
    exact uncondBranch_ok (s := { s with globalCtrs := ctrs }) hh

/-- C10 after one unconditional branch on the fresh default predictor. -/
theorem uncondBranch_shifts_one_into_history_witness :
    ∃ tok s' hp', uncondBranch demoJumped [some { globalHistory := 0 }] 0 8
        = .ok (tok, s', hp') ∧
      s'.globalHistory[0]? = some (((1 <<< 1) ||| 1) &&& (2 ^ 6 - 1)) ∧
      Heap.read hp' tok = some { globalHistory := 1 } ∧
      s'.globalCtrs = demoJumped.globalCtrs ∧
      ∀ ctrs, uncondBranch { demoJumped with globalCtrs := ctrs } [some { globalHistory := 0 }] 0 8
        = .ok (tok, { s' with globalCtrs := ctrs }, hp') :=
  uncondBranch_shifts_one_into_history demoParams demoJumped _ 0 8 1 demo_reachable
    (by decide) rfl

/-- Bit `i` of the stored mask: set exactly below the history width and below 32. -/
theorem maskWord_testBit (bits i : Nat) :
    (maskWord bits).testBit i = (decide (i < 32) && decide (i < bits)) := by
  unfold maskWord mask
  rw [Nat.testBit_mod_two_pow, Nat.testBit_two_pow_sub_one]

/-- Bit `i` of the word `~1ULL`. -/
theorem notOne_testBit (i : Nat) :
    (2 ^ 64 - 2 : Nat).testBit i = (decide (i < 64) && decide (i ≠ 0)) := by
  have e : (2 ^ 64 - 2 : Nat) = 2 ^ 64 - (1 + 1) := rfl
  rw [e, Nat.testBit_two_pow_sub_succ (by norm_num)]
  have h1 : Nat.testBit 1 i = decide (i = 0) := by
    have := Nat.testBit_bool_to_nat true i
    simpa using this
  rw [h1]
  by_cases h : i = 0 <;> simp [h]

/-- A register inside the stored mask has no bit at position 32 or above. -/
theorem testBit_lt_of_and_maskWord {h bits i : Nat} (hm : h &&& maskWord bits = h)
    (hi : h.testBit i = true) : i < 32 ∧ i < bits := by
  have := congrArg (fun x => x.testBit i) hm
  simp only [Nat.testBit_and, maskWord_testBit, hi, Bool.true_and] at this
  simpa using this

/-- The value `btbUpdate` stores for a register inside the stored mask: the
register with bit 0 cleared. -/
theorem btb_value_testBit {h bits : Nat} (hm : h &&& maskWord bits = h) (i : Nat) :
    ((h &&& (maskWord bits &&& (2 ^ 64 - 2))) % 2 ^ 32).testBit i
      = (decide (i ≠ 0) && h.testBit i) := by
  rw [Nat.testBit_mod_two_pow, Nat.testBit_and, Nat.testBit_and, maskWord_testBit,
    notOne_testBit]
  cases hi : h.testBit i with
  | false => simp
  | true =>
    obtain ⟨h32, hb⟩ := testBit_lt_of_and_maskWord hm hi
    have h64 : i < 64 := by omega
    simp [h32, hb, h64]

/-- Clearing bit 0 after shifting a prediction in leaves the shifted register
under the mask, whatever the prediction was. -/
theorem btb_after_shiftIn (h bits : Nat) (p : Bool) (hb : bits ≤ 32) :
    ((((((h <<< 1) % 2 ^ 32) ||| p.toNat) &&& maskWord bits)
        &&& (maskWord bits &&& (2 ^ 64 - 2))) % 2 ^ 32)
      = (h <<< 1) &&& (2 ^ bits - 1) := by
  apply Nat.eq_of_testBit_eq
  intro i
  simp only [Nat.testBit_mod_two_pow, Nat.testBit_and, Nat.testBit_or, maskWord_testBit,
    notOne_testBit, Nat.testBit_bool_to_nat, Nat.testBit_two_pow_sub_one,
    Nat.testBit_shiftLeft]
  by_cases hi : i < bits
  · have h32 : i < 32 := by omega
    have h64 : i < 64 := by omega
    by_cases h0 : i = 0
    · simp [h0]
    · simp [hi, h32, h64, h0]
  · simp [hi]

/-- C11: in a reachable state, on a valid thread, `btbUpdate` returns with the
free store as it was (no token is made), leaves in `globalHistory[tid]` the
old value with bit 0 cleared and every other bit as it was, and changes
neither the counter table nor the register of any other thread; and, for at
most 32 history bits, `lookup` followed by `btbUpdate` leaves
`globalHistory[tid]` equal to `(h << 1) & (2 ^ globalHistoryBits - 1)`,
whatever the prediction was. -/
theorem btbUpdate_clears_low_history_bit (params : CustomBPParams) (s : CustomBP)
    (hp : Heap) (tid branchAddress h : Nat)
    (hr : Reachable params s hp)
    (hh : s.globalHistory[tid]? = some h) :
    (∃ s' h', btbUpdate s hp tid branchAddress = .ok (s', hp) ∧
      s'.globalHistory[tid]? = some h' ∧
      (∀ i, h'.testBit i = (decide (i ≠ 0) && h.testBit i)) ∧
      s'.globalCtrs = s.globalCtrs ∧
      (∀ u, u ≠ tid → s'.globalHistory[u]? = s.globalHistory[u]?)) ∧
    (s.globalHistoryBits ≤ 32 → index s branchAddress h < s.globalCtrs.length →
      ∃ p tok s1 hp1 s2, lookup s hp tid branchAddress = .ok (p, tok, s1, hp1) ∧
        btbUpdate s1 hp1 tid branchAddress = .ok (s2, hp1) ∧
        s2.globalHistory[tid]? = some ((h <<< 1) &&& (2 ^ s.globalHistoryBits - 1))) := by
  have hi := reachable_inv hr
  have hm := hi.history h (List.getElem?_mem hh)
  rw [hi.configured.1] at hm
  constructor
  · refine ⟨_, _, btbUpdate_ok hh, getElem?_set_same hh, ?_, rfl, ?_⟩
    · intro i
      rw [hi.configured.1]
      exact btb_value_testBit hm i
    · intro u hu
      simp only
      rw [List.getElem?_set_ne (Ne.symm hu)]
  · intro hbits hlt
    have hc : s.globalCtrs[index s branchAddress h]?
        = some (s.globalCtrs.get ⟨index s branchAddress h, hlt⟩) :=
      List.getElem?_eq_getElem hlt
    refine ⟨_, _, _, _, _, lookup_ok hh hc, btbUpdate_ok (getElem?_set_same hh), ?_⟩
    simp only
    rw [getElem?_set_same (getElem?_set_same hh), hi.configured.1,
      btb_after_shiftIn _ _ _ hbits]

/-- C11 on the trained default predictor: history 3 becomes 2, and `lookup`
followed by `btbUpdate` leaves 6. -/
theorem btbUpdate_clears_low_history_bit_witness :
    (∃ s' h', btbUpdate demoState [none, none, none, none] 0 1
        = .ok (s', [none, none, none, none]) ∧
      s'.globalHistory[0]? = some h' ∧
      (∀ i, h'.testBit i = (decide (i ≠ 0) && Nat.testBit 3 i)) ∧
      s'.globalCtrs = demoState.globalCtrs ∧
      (∀ u, u ≠ 0 → s'.globalHistory[u]? = demoState.globalHistory[u]?)) ∧
    (∃ p tok s1 hp1 s2, lookup demoState [none, none, none, none] 0 1 = .ok (p, tok, s1, hp1) ∧
        btbUpdate s1 hp1 0 1 = .ok (s2, hp1) ∧
        s2.globalHistory[0]? = some ((3 <<< 1) &&& (2 ^ 6 - 1))) :=
  ⟨(btbUpdate_clears_low_history_bit demoParams demoState [none, none, none, none] 0 1 3
      (run_reachable demoCalls (Reachable.init (s := demoFresh) rfl) rfl) rfl).1,
   (btbUpdate_clears_low_history_bit demoParams demoState [none, none, none, none] 0 1 3
      (run_reachable demoCalls (Reachable.init (s := demoFresh) rfl) rfl) rfl).2
      (by decide) (by decide)⟩

/-- For a power-of-two table size the constructor returns `fresh params`. -/
theorem construct_eq_fresh {params : CustomBPParams}
    (h : isPowerOf2 params.globalPredictorSize = true) :
    construct params = .ok (fresh params) := by
  unfold construct fresh
  simp [h]

/-- With history 0 the index is all ones under the mask, whatever the address. -/
theorem index_zero_history (s : CustomBP) (a : Nat) (hb : s.globalHistoryBits ≤ 32)
    (hm : s.historyRegisterMask = maskWord s.globalHistoryBits) :
    index s a 0 = 2 ^ s.globalHistoryBits - 1 := by
  unfold index
  rw [hm, maskWord_eq hb, Nat.and_zero, Nat.sub_zero]
  apply Nat.eq_of_testBit_eq
  intro i
  rw [Nat.testBit_and, Nat.testBit_mod_two_pow, Nat.testBit_two_pow_sub_one,
    Nat.testBit_two_pow_sub_one]
  by_cases hi : i < s.globalHistoryBits
  · have h32 : i < 32 := by omega
    have h64 : i < 64 := by omega
    simp [hi, h32, h64]
  · simp [hi]

/-- C12 fails on the code: the constructor accepts 32 counters for 6 history
bits, and the first `lookup` on that predictor computes index 63 and reads
outside the 32-entry table. -/
theorem lookup_reads_outside_small_table :
    ∃ s, construct smallTableParams = .ok s ∧ s.globalCtrs.length = 32 ∧
      s.globalHistory[0]? = some 0 ∧ index s 4096 0 = 63 ∧
      lookup s [] 0 4096 = .error .undefined :=
  ⟨_, rfl, rfl, rfl, rfl, rfl⟩

/-- C13: for every configuration with `globalPredictorSize = 2 ^ globalHistoryBits`,
at most 32 history bits and at least one thread, construction succeeds with
every history register 0 and every counter 0; for every branch address,
`lookup(0, addr)` computes index `2 ^ globalHistoryBits - 1`, predicts
not-taken and leaves `globalHistory[0]` at 0; the following
`update(0, addr, false, token, false)` computes the same index and leaves that
counter, and every counter of the table, at 0. -/
theorem fresh_predictor_scenario (params : CustomBPParams)
    (hsize : params.globalPredictorSize = 2 ^ params.globalHistoryBits)
    (hbits : params.globalHistoryBits ≤ 32) (hthreads : 0 < params.numThreads) :
    ∃ s0, construct params = .ok s0 ∧
      (∀ h ∈ s0.globalHistory, h = 0) ∧ (∀ c ∈ s0.globalCtrs, c.counter = 0) ∧
      ∀ addr, s0.globalHistory[0]? = some 0 ∧
        index s0 addr 0 = 2 ^ params.globalHistoryBits - 1 ∧
        ∃ tok s1 hp1, lookup s0 [] 0 addr = .ok (false, tok, s1, hp1) ∧
          s1.globalHistory[0]? = some 0 ∧
          index s1 addr 0 = 2 ^ params.globalHistoryBits - 1 ∧
          ∃ s2 hp2 c, update s1 hp1 0 addr false tok false = .ok (s2, hp2) ∧
            s2.globalCtrs[2 ^ params.globalHistoryBits - 1]? = some c ∧ c.counter = 0 ∧
            ∀ c' ∈ s2.globalCtrs, c'.counter = 0 := by
  have hpow : isPowerOf2 params.globalPredictorSize = true :=
    (isPowerOf2_iff _).mpr ⟨_, hsize⟩
  refine ⟨_, construct_eq_fresh hpow, ?_, ?_, ?_⟩
  · intro h hh
    exact (List.mem_replicate.mp hh).2
  · intro c hc
    rw [(List.mem_replicate.mp hc).2]
    rfl
  · intro addr
    have hh : (List.replicate params.numThreads 0)[0]? = some 0 :=
      List.getElem?_replicate_of_lt hthreads
    have hidx : index (fresh params) addr 0 = 2 ^ params.globalHistoryBits - 1 :=
      index_zero_history (fresh params) addr hbits rfl
    have hlt : 2 ^ params.globalHistoryBits - 1 < params.globalPredictorSize := by
      have : 0 < 2 ^ params.globalHistoryBits := by positivity
      omega
    have hc : (List.replicate params.globalPredictorSize
        (SatCounter8.init params.globalCtrBits))[2 ^ params.globalHistoryBits - 1]?
          = some (SatCounter8.init params.globalCtrBits) :=
      List.getElem?_replicate_of_lt hlt
    refine ⟨hh, hidx, ?_⟩
    have hl := @lookup_ok (fresh params) [] 0 addr 0 (SatCounter8.init params.globalCtrBits) hh
        (by rw [hidx]; exact hc)
    simp only [fresh, SatCounter8.init, Nat.not_lt_zero, decide_False, Bool.toNat_false,
      Nat.zero_shiftLeft, Nat.zero_mod, Nat.or_zero, Nat.zero_and, set_same hh,
      List.length_nil, Nat.zero_add, List.nil_append] at hl
    refine ⟨_, _, _, hl, hh, hidx, ?_⟩
    have hu := @update_resolved_ok (fresh params) [some { globalHistory := 0 }] 0 addr 1 0 false
        { globalHistory := 0 } (SatCounter8.init params.globalCtrBits) rfl hh
        (by rw [hidx]; exact hc)
    have hdec : (SatCounter8.init params.globalCtrBits).decrement
        = SatCounter8.init params.globalCtrBits := rfl
    simp only [Bool.false_eq_true, if_false, hdec, hidx] at hu
    simp only [fresh, set_same hc] at hu
    refine ⟨_, _, _, hu, hc, rfl, ?_⟩
    intro c' hc'
    rw [(List.mem_replicate.mp hc').2]
    rfl

/-- C13 on the default configuration with address `0x1000`: the index is `0x3F`. -/
theorem fresh_predictor_scenario_witness :
    ∃ s0, construct demoParams = .ok s0 ∧
      (∀ h ∈ s0.globalHistory, h = 0) ∧ (∀ c ∈ s0.globalCtrs, c.counter = 0) ∧
      ∀ addr, s0.globalHistory[0]? = some 0 ∧
        index s0 addr 0 = 2 ^ 6 - 1 ∧
        ∃ tok s1 hp1, lookup s0 [] 0 addr = .ok (false, tok, s1, hp1) ∧
          s1.globalHistory[0]? = some 0 ∧
          index s1 addr 0 = 2 ^ 6 - 1 ∧
          ∃ s2 hp2 c, update s1 hp1 0 addr false tok false = .ok (s2, hp2) ∧
            s2.globalCtrs[2 ^ 6 - 1]? = some c ∧ c.counter = 0 ∧
            ∀ c' ∈ s2.globalCtrs, c'.counter = 0 :=
  fresh_predictor_scenario demoParams (by decide) (by decide) (by decide)

/-- The two embeddings of `update` agree: `update` is `updateStop` with the
state at a fault dropped. -/
theorem update_eq_updateStop (s : CustomBP) (hp : Heap) (tid a tok : Nat)
    (taken squashed : Bool) :
    update s hp tid a taken tok squashed
      = Stop.toExcept (updateStop s hp tid a taken tok squashed) := by
  unfold update updateStop
  by_cases h0 : tok = 0
  · simp [h0, Stop.toExcept]
  · cases squashed with
    | true =>
      cases hr : Heap.read hp tok with
      | none => simp [h0, hr, Stop.toExcept]
      | some r =>
        cases hh : s.globalHistory[tid]? with
        | none => simp [h0, hr, hh, Stop.toExcept]
        | some h => simp [h0, hr, hh, Stop.toExcept]
    | false =>
      cases hh : s.globalHistory[tid]? with
      | none => simp [h0, hh, Stop.toExcept]
      | some h =>
        cases hc : s.globalCtrs[index s a h]? with
        | none => simp [h0, hh, hc, Stop.toExcept]
        | some c =>
          cases hf : Heap.free hp tok with
          | none => simp [h0, hh, hc, hf, Stop.toExcept]
          | some hp1 => simp [h0, hh, hc, hf, Stop.toExcept]

/-- A fault can come after a write: with a token that was already deleted, the
non-squashed `update` stops at the `delete` with counter 63 already
decremented from 3 to 2. -/
theorem updateStop_writes_before_delete :
    ∃ s', updateStop demoState [none] 0 1 false 1 false = (some .undefined, s', [none]) ∧
      demoState.globalCtrs[63]? = some { maxVal := 3, counter := 3 } ∧
      s'.globalCtrs[63]? = some { maxVal := 3, counter := 2 } :=
  ⟨_, rfl, rfl, rfl⟩

/-- C15: `update` called with the null pointer as token ends in the assertion
failure, in every state and for all other arguments, and the call stops with
the predictor (every history register, every counter) and the free store
exactly as they were before the call. -/
theorem update_null_token_asserts_before_any_write (s : CustomBP) (hp : Heap)
    (tid branchAddress : Nat) (taken squashed : Bool) :
    update s hp tid branchAddress taken 0 squashed = .error .assertion ∧
    updateStop s hp tid branchAddress taken 0 squashed = (some .assertion, s, hp) := by
  constructor
  · unfold update
    simp
  · unfold updateStop
    simp

/-- The stored mask is at most `2 ^ bits - 1`. -/
theorem maskWord_le (bits : Nat) : maskWord bits ≤ 2 ^ bits - 1 := by
  unfold maskWord mask
  exact Nat.mod_le _ _

/-- C16: in every state a freshly constructed predictor reaches by any sequence
of `lookup`, `uncondBranch`, `btbUpdate`, `update` and `squash` calls, every
history register is at most `2 ^ globalHistoryBits - 1`, has no bit set at
position `globalHistoryBits` or above, and the snapshot of every record in
the free store is at most `2 ^ globalHistoryBits - 1` as well. -/
theorem history_stays_within_width (params : CustomBPParams) (s0 s : CustomBP) (hp : Heap)
    (calls : List Call)
    (hc : construct params = .ok s0) (hrun : run s0 [] calls = .ok (s, hp)) :
    (∀ h ∈ s.globalHistory, h ≤ 2 ^ params.globalHistoryBits - 1 ∧
      ∀ i, params.globalHistoryBits ≤ i → h.testBit i = false) ∧
    (∀ r : BPHistory, some r ∈ hp → r.globalHistory ≤ 2 ^ params.globalHistoryBits - 1) := by
  have hi := reachable_inv (run_reachable calls (Reachable.init hc) hrun)
  have hm : s.historyRegisterMask ≤ 2 ^ params.globalHistoryBits - 1 := by
    rw [hi.configured.1, hi.bits]
    exact maskWord_le _
  have hpos : 0 < 2 ^ params.globalHistoryBits := by positivity
  constructor
  · intro h hh
    have h1 : h ≤ s.historyRegisterMask := by
      have := hi.history h hh
      rw [← this]
      exact Nat.and_le_right
    refine ⟨le_trans h1 hm, ?_⟩
    intro i hle
    apply Nat.testBit_lt_two_pow
    have : 2 ^ params.globalHistoryBits ≤ 2 ^ i := Nat.pow_le_pow_right (by norm_num) hle
    omega
  · intro r hr
    have h1 : r.globalHistory ≤ s.historyRegisterMask := by
      have := hi.tokens r hr
      rw [← this]
      exact Nat.and_le_right
    exact le_trans h1 hm

/-- C16 on the default configuration, after unconditional branches, a squash
and a `lookup`: three tokens are outstanding. -/
theorem history_stays_within_width_witness :
    (∀ h ∈ ({ demoFresh with globalHistory := [6] } : CustomBP).globalHistory,
      h ≤ 2 ^ 6 - 1 ∧ ∀ i, 6 ≤ i → h.testBit i = false) ∧
    (∀ r : BPHistory,
      some r ∈ ([some { globalHistory := 0 }, none, some { globalHistory := 1 },
          some { globalHistory := 3 }] : Heap) →
        r.globalHistory ≤ 2 ^ 6 - 1) :=
  history_stays_within_width demoParams demoFresh { demoFresh with globalHistory := [6] }
    [some { globalHistory := 0 }, none, some { globalHistory := 1 }, some { globalHistory := 3 }]
    [.uncondBranch 0 0, .uncondBranch 0 0, .squash 0 2, .uncondBranch 0 0, .lookup 0 0]
    rfl rfl

/-- A live record can be overwritten, and is then read back. -/
theorem read_set {hp : Heap} {tok : Nat} {r : BPHistory} (r' : BPHistory)
    (hr : Heap.read hp tok = some r) :
    Heap.read (hp.set (tok - 1) (some r')) tok = some r' := by
  unfold Heap.read at hr ⊢
  by_cases h0 : tok = 0
  · simp [h0] at hr
  · simp only [h0, if_false] at hr ⊢
    cases hg : hp[tok - 1]? with
    | none => simp [hg] at hr
    | some o =>
      obtain ⟨hlt, -⟩ := List.getElem?_eq_some.mp hg
      simp [hlt]

/-- C17: a non-squashed `update` computes its index from the current
`globalHistory[tid]` and not from the record its token addresses: with any
other record stored at the token the predictor state after the call is the
same; and on the trained default predictor (reachable; history 3, counter 63
at 3, address 1) `lookup` reads counter 63 while the `update` that follows at
once trains counter 59. -/
theorem update_indexes_with_current_history :
    (∀ (s : CustomBP) (hp : Heap) (tid a tok h : Nat) (taken : Bool) (r r' : BPHistory)
        (c : SatCounter8),
      Heap.read hp tok = some r → s.globalHistory[tid]? = some h →
      s.globalCtrs[index s a h]? = some c →
      ∃ s' hp1 hp2, update s hp tid a taken tok false = .ok (s', hp1) ∧
        update s (hp.set (tok - 1) (some r')) tid a taken tok false = .ok (s', hp2) ∧
        s'.globalCtrs
          = s.globalCtrs.set (index s a h) (if taken then c.increment else c.decrement)) ∧
    (∃ p tok s1 hp1 s2 hp2,
      Reachable demoParams demoState [none, none, none, none] ∧
      demoState.globalHistory[0]? = some 3 ∧ index demoState 1 3 = 63 ∧
      lookup demoState [none, none, none, none] 0 1 = .ok (p, tok, s1, hp1) ∧
      s1.globalHistory[0]? = some 7 ∧ index s1 1 7 = 59 ∧
      update s1 hp1 0 1 p tok false = .ok (s2, hp2) ∧
      s2.globalCtrs[59]? = some { maxVal := 3, counter := 1 } ∧
      s2.globalCtrs[63]? = s1.globalCtrs[63]?) := by
  constructor
  · intro s hp tid a tok h taken r r' c hr hh hc
    exact ⟨_, _, _, update_resolved_ok hr hh hc, update_resolved_ok (read_set r' hr) hh hc, rfl⟩
  · exact ⟨_, _, _, _, _, _,
      run_reachable demoCalls (Reachable.init (s := demoFresh) rfl) rfl,
      rfl, rfl, rfl, rfl, rfl, rfl, rfl, rfl⟩

/-- C17 at a token whose record holds 0 while the register holds 3: the record
is replaced by one holding 42 and the call returns the same predictor state. -/
theorem update_indexes_with_current_history_witness :
    ∃ s' hp1 hp2,
      update demoState [some { globalHistory := 0 }] 0 1 true 1 false = .ok (s', hp1) ∧
      update demoState ([some { globalHistory := 0 }].set (1 - 1) (some { globalHistory := 42 }))
          0 1 true 1 false = .ok (s', hp2) ∧
      s'.globalCtrs
        = demoState.globalCtrs.set (index demoState 1 3)
            (if true = true then SatCounter8.increment { maxVal := 3, counter := 3 }
              else SatCounter8.decrement { maxVal := 3, counter := 3 }) :=
  update_indexes_with_current_history.1 demoState [some { globalHistory := 0 }] 0 1 1 3 true
    { globalHistory := 0 } { globalHistory := 42 } { maxVal := 3, counter := 3 } rfl rfl rfl

/-- C18: a call of `lookup`, `uncondBranch`, `btbUpdate`, `update` (squashed or
not) or `squash` made for thread `t` that returns leaves `globalHistory[u]`
of every other thread `u` as it was. -/
theorem other_threads_history_untouched (s s' : CustomBP) (hp hp' : Heap) (c : Call)
    (u : Nat) (hs : step s hp c = .ok (s', hp')) (hu : u ≠ c.tid) :
    s'.globalHistory[u]? = s.globalHistory[u]? := by
  cases c with
  | lookup tid a =>
    simp only [step] at hs
    cases hl : lookup s hp tid a with
    | error e => simp [hl, Except.map] at hs
    | ok r =>
      obtain ⟨p, tok, s1, hp1⟩ := r
      obtain ⟨h, c, hh, hc⟩ := lookup_inv hl
      rw [hl] at hs
      rw [lookup_ok hh hc] at hl
      simp only [Except.map, Except.ok.injEq, Prod.mk.injEq] at hs hl
      obtain ⟨rfl, rfl⟩ := hs
      obtain ⟨-, -, rfl, rfl⟩ := hl
      exact List.getElem?_set_ne (Ne.symm hu)
  | uncondBranch tid pc =>
    simp only [step] at hs
    cases hl : uncondBranch s hp tid pc with
    | error e => simp [hl, Except.map] at hs
    | ok r =>
      obtain ⟨tok, s1, hp1⟩ := r
      obtain ⟨h, hh⟩ := uncondBranch_inv hl
      rw [hl] at hs
      rw [uncondBranch_ok hh] at hl
      simp only [Except.map, Except.ok.injEq, Prod.mk.injEq] at hs hl
      obtain ⟨rfl, rfl⟩ := hs
      obtain ⟨-, rfl, rfl⟩ := hl
      exact List.getElem?_set_ne (Ne.symm hu)
  | btbUpdate tid a =>
    simp only [step] at hs
    obtain ⟨h, hh⟩ := btbUpdate_inv hs
    rw [btbUpdate_ok hh] at hs
    simp only [Except.ok.injEq, Prod.mk.injEq] at hs
    obtain ⟨rfl, rfl⟩ := hs
    exact List.getElem?_set_ne (Ne.symm hu)
  | update tid a taken tok squashed =>
    simp only [step] at hs
    cases squashed with
    | true =>
      obtain ⟨r, h, hr, hh⟩ := update_squashed_inv hs
      rw [update_squashed_ok hr hh] at hs
      simp only [Except.ok.injEq, Prod.mk.injEq] at hs
      obtain ⟨rfl, rfl⟩ := hs
      exact List.getElem?_set_ne (Ne.symm hu)
    | false =>
      obtain ⟨r, h, c, hr, hh, hc⟩ := update_resolved_inv hs
      rw [update_resolved_ok hr hh hc] at hs
      simp only [Except.ok.injEq, Prod.mk.injEq] at hs
      obtain ⟨rfl, rfl⟩ := hs
      rfl
  | squash tid tok =>
    simp only [step] at hs
    obtain ⟨r, h, hr, hh⟩ := squash_inv hs
    rw [squash_ok hr hh] at hs
    simp only [Except.ok.injEq, Prod.mk.injEq] at hs
    obtain ⟨rfl, rfl⟩ := hs
    exact List.getElem?_set_ne (Ne.symm hu)

/-- C18 with two threads: a `lookup` for thread 0 leaves the register of
thread 1 at 5. -/
theorem other_threads_history_untouched_witness :
    ({ demoState with globalHistory := [7, 5] } : CustomBP).globalHistory[1]?
      = demoTwoThreads.globalHistory[1]? :=
  other_threads_history_untouched demoTwoThreads { demoState with globalHistory := [7, 5] }
    [] [some { globalHistory := 3 }] (.lookup 0 1) 1 rfl (by decide)

/-- Shifting in the opposite outcome changes bit 0 at most. -/
theorem shiftIn_not_testBit (h m i : Nat) (p : Bool) (hi : i ≠ 0) :
    ((((h <<< 1) % 2 ^ 32) ||| (!p).toNat) &&& m).testBit i
      = ((((h <<< 1) % 2 ^ 32) ||| p.toNat) &&& m).testBit i := by
  simp only [Nat.testBit_and, Nat.testBit_or, Nat.testBit_bool_to_nat, hi, decide_False,
    Bool.false_and]

/-- C19: in a reachable state, when `lookup` (valid thread, counter access in
range) returns prediction `p` and token `t`, then in any later state of the
same predictor, whatever its history registers, counters and free store have
become as long as the record of `t` is still live, `update` with
`squashed = true` and outcome `p` returns and leaves `globalHistory[tid]`
equal to its value right after that `lookup`; with outcome `not p` the result
agrees with that value on every bit except bit 0. -/
theorem squashed_update_replays_lookup (params : CustomBPParams) (s : CustomBP)
    (hp : Heap) (tid branchAddress h : Nat) (c : SatCounter8)
    (hr : Reachable params s hp)
    (hh : s.globalHistory[tid]? = some h)
    (hc : s.globalCtrs[index s branchAddress h]? = some c) :
    ∃ p tok s1 hp1 h1, lookup s hp tid branchAddress = .ok (p, tok, s1, hp1) ∧
      s1.globalHistory[tid]? = some h1 ∧
      ∀ (g : List Nat) (ctrs : List SatCounter8) (hp2 : Heap) (x : Nat),
        g[tid]? = some x → Heap.read hp2 tok = Heap.read hp1 tok →
        (∃ s3, update { s1 with globalHistory := g, globalCtrs := ctrs } hp2 tid branchAddress
            p tok true = .ok (s3, hp2) ∧ s3.globalHistory[tid]? = some h1) ∧
        (∃ s4 h4, update { s1 with globalHistory := g, globalCtrs := ctrs } hp2 tid
            branchAddress (!p) tok true = .ok (s4, hp2) ∧
          s4.globalHistory[tid]? = some h4 ∧ ∀ i, i ≠ 0 → h4.testBit i = h1.testBit i) := by
  have hi := reachable_inv hr
  have hm := hi.history h (List.getElem?_mem hh)
  refine ⟨_, _, _, _, _, lookup_ok hh hc, getElem?_set_same hh, ?_⟩
  intro g ctrs hp2 x hg hrd
  rw [read_alloc, hm] at hrd
  constructor
  · exact ⟨_, update_squashed_ok (s := { s with globalHistory := g, globalCtrs := ctrs })
      hrd hg, getElem?_set_same hg⟩
  · refine ⟨_, _, update_squashed_ok (s := { s with globalHistory := g, globalCtrs := ctrs })
      hrd hg, getElem?_set_same hg, ?_⟩
    intro i hi0
    exact shiftIn_not_testBit h _ i _ hi0

/-- C19 on the trained default predictor: the token of the `lookup` captured
history 3; after the register has become 0, the squashed `update` with the
predicted outcome puts back 7. -/
theorem squashed_update_replays_lookup_witness :
    ∃ p tok s1 hp1 h1, lookup demoState [none, none, none, none] 0 1 = .ok (p, tok, s1, hp1) ∧
      s1.globalHistory[0]? = some h1 ∧
      ∀ (g : List Nat) (ctrs : List SatCounter8) (hp2 : Heap) (x : Nat),
        g[0]? = some x → Heap.read hp2 tok = Heap.read hp1 tok →
        (∃ s3, update { s1 with globalHistory := g, globalCtrs := ctrs } hp2 0 1
            p tok true = .ok (s3, hp2) ∧ s3.globalHistory[0]? = some h1) ∧
        (∃ s4 h4, update { s1 with globalHistory := g, globalCtrs := ctrs } hp2 0
            1 (!p) tok true = .ok (s4, hp2) ∧
          s4.globalHistory[0]? = some h4 ∧ ∀ i, i ≠ 0 → h4.testBit i = h1.testBit i) :=
  squashed_update_replays_lookup demoParams demoState [none, none, none, none] 0 1 3
    { maxVal := 3, counter := 3 }
    (run_reachable demoCalls (Reachable.init (s := demoFresh) rfl) rfl) rfl rfl

/-- The low `m` bits of `x` are all ones exactly when `x % 2 ^ m = 2 ^ m - 1`. -/
theorem low_bits_ones_iff (x m : Nat) :
    x % 2 ^ m = 2 ^ m - 1 ↔ ∀ i, i < m → x.testBit i = true := by
  constructor
  · intro h i hi
    have := congrArg (fun y => y.testBit i) h
    simpa [Nat.testBit_mod_two_pow, Nat.testBit_two_pow_sub_one, hi] using this
  · intro h
    apply Nat.eq_of_testBit_eq
    intro i
    rw [Nat.testBit_mod_two_pow, Nat.testBit_two_pow_sub_one]
    by_cases hi : i < m
    · simp [hi, h i hi]
    · simp [hi]

/-- For a shift amount below 64: below the shift amount, the history width and
32, every bit of the index is set: the shifted address has no bit there, so
the AND is 0 and its complement 1. -/
theorem index_low_bits (s : CustomBP) (a h i : Nat)
    (hmask : s.historyRegisterMask = maskWord s.globalHistoryBits)
    (hsh : s.instShiftAmt < 64)
    (hm : min s.instShiftAmt s.globalHistoryBits ≤ 32)
    (hi : i < min s.instShiftAmt s.globalHistoryBits) :
    (index s a h).testBit i = true := by
  unfold index
  rw [Nat.mod_eq_of_lt hsh]
  have hlt : ((a <<< s.instShiftAmt) % 2 ^ 64) &&& h < 2 ^ 64 :=
    lt_of_le_of_lt Nat.and_le_left (Nat.mod_lt _ (by positivity))
  have e : 2 ^ 64 - 1 - (((a <<< s.instShiftAmt) % 2 ^ 64) &&& h)
      = 2 ^ 64 - ((((a <<< s.instShiftAmt) % 2 ^ 64) &&& h) + 1) := by omega
  have h1 : i < s.instShiftAmt := lt_of_lt_of_le hi (Nat.min_le_left _ _)
  have h2 : i < s.globalHistoryBits := lt_of_lt_of_le hi (Nat.min_le_right _ _)
  have h32 : i < 32 := by omega
  have h64 : i < 64 := by omega
  have hns : ¬ s.instShiftAmt ≤ i := by omega
  rw [e, hmask, Nat.testBit_and, Nat.testBit_mod_two_pow, Nat.testBit_two_pow_sub_succ hlt,
    maskWord_testBit, Nat.testBit_and, Nat.testBit_mod_two_pow, Nat.testBit_shiftLeft]
  simp [h32, h64, h2, hns]

/-- A call that returns leaves the counter table as it was or overwrites the one
counter at the index computed for its address and some history value. -/
theorem step_ctrs {s s' : CustomBP} {hp hp' : Heap} (c : Call)
    (hs : step s hp c = .ok (s', hp')) :
    s'.globalCtrs = s.globalCtrs ∨
      ∃ a h v, s'.globalCtrs = s.globalCtrs.set (index s a h) v := by
  cases c with
  | lookup tid a =>
    simp only [step] at hs
    cases hl : lookup s hp tid a with
    | error e => simp [hl, Except.map] at hs
    | ok r =>
      obtain ⟨p, tok, s1, hp1⟩ := r
      obtain ⟨h, c, hh, hc⟩ := lookup_inv hl
      rw [hl] at hs
      rw [lookup_ok hh hc] at hl
      simp only [Except.map, Except.ok.injEq, Prod.mk.injEq] at hs hl
      obtain ⟨rfl, rfl⟩ := hs
      obtain ⟨-, -, rfl, rfl⟩ := hl
      exact Or.inl rfl
  | uncondBranch tid pc =>
    simp only [step] at hs
    cases hl : uncondBranch s hp tid pc with
    | error e => simp [hl, Except.map] at hs
    | ok r =>
      obtain ⟨tok, s1, hp1⟩ := r
      obtain ⟨h, hh⟩ := uncondBranch_inv hl
      rw [hl] at hs
      rw [uncondBranch_ok hh] at hl
      simp only [Except.map, Except.ok.injEq, Prod.mk.injEq] at hs hl
      obtain ⟨rfl, rfl⟩ := hs
      obtain ⟨-, rfl, rfl⟩ := hl
      exact Or.inl rfl
  | btbUpdate tid a =>
    simp only [step] at hs
    obtain ⟨h, hh⟩ := btbUpdate_inv hs
    rw [btbUpdate_ok hh] at hs
    simp only [Except.ok.injEq, Prod.mk.injEq] at hs
    obtain ⟨rfl, rfl⟩ := hs
    exact Or.inl rfl
  | update tid a taken tok squashed =>
    simp only [step] at hs
    cases squashed with
    | true =>
      obtain ⟨r, h, hr, hh⟩ := update_squashed_inv hs
      rw [update_squashed_ok hr hh] at hs
      simp only [Except.ok.injEq, Prod.mk.injEq] at hs
      obtain ⟨rfl, rfl⟩ := hs
      exact Or.inl rfl
    | false =>
      obtain ⟨r, h, c, hr, hh, hc⟩ := update_resolved_inv hs
      rw [update_resolved_ok hr hh hc] at hs
      simp only [Except.ok.injEq, Prod.mk.injEq] at hs
      obtain ⟨rfl, rfl⟩ := hs
      exact Or.inr ⟨a, h, _, rfl⟩
  | squash tid tok =>
    simp only [step] at hs
    obtain ⟨r, h, hr, hh⟩ := squash_inv hs
    rw [squash_ok hr hh] at hs
    simp only [Except.ok.injEq, Prod.mk.injEq] at hs
    obtain ⟨rfl, rfl⟩ := hs
    exact Or.inl rfl

/-- In a reachable state a counter that is not 0 sits at a position whose low
bits, below the shift amount and the history width, are all ones. -/
theorem reachable_trained_positions {params : CustomBPParams} {s : CustomBP} {hp : Heap}
    (hr : Reachable params s hp) (hsh : params.instShiftAmt < 64)
    (hm : min params.instShiftAmt params.globalHistoryBits ≤ 32) :
    ∀ (j : Nat) (c : SatCounter8), s.globalCtrs[j]? = some c → c.counter ≠ 0 →
      ∀ i, i < min params.instShiftAmt params.globalHistoryBits → j.testBit i = true := by
  induction hr with
  | init hc =>
    intro j c hj hne
    have hi := construct_inv hc
    exfalso
    apply hne
    unfold construct at hc
    by_cases hp2 : isPowerOf2 params.globalPredictorSize = true
    · simp only [hp2, Bool.not_true, Bool.false_eq_true, if_false, Except.ok.injEq] at hc
      subst hc
      have := List.getElem?_mem hj
      rw [(List.mem_replicate.mp this).2]
      rfl
    · simp [hp2] at hc
  | call c hr' hs ih =>
    rename_i s1 s2 hp1 hp2
    intro j ctr hj hne i hi
    have hinv := reachable_inv hr'
    rcases step_ctrs c hs with heq | ⟨a, h, v, heq⟩
    · rw [heq] at hj
      exact ih j ctr hj hne i hi
    · rw [heq] at hj
      by_cases hji : index s1 a h = j
      · subst hji
        apply index_low_bits s1 a h i hinv.configured.1
        · rw [hinv.shift]; exact hsh
        · rw [hinv.shift, hinv.bits]; exact hm
        · rw [hinv.shift, hinv.bits]; exact hi
      · rw [List.getElem?_set_ne hji] at hj
        exact ih j ctr hj hne i hi

/-- C20: when `instShiftAmt` is below 64 (the width of the shifted address)
and the smaller of `instShiftAmt` and `globalHistoryBits` is at most 32 (the
width of the index), in every state a freshly constructed predictor reaches by
any sequence of calls, the index `lookup` and `update` compute has its low
`min instShiftAmt globalHistoryBits` bits all set, for every branch address
and every history value; and every counter whose position does not have those
bits all set still holds 0. -/
theorem untrained_counters_stay_zero (params : CustomBPParams) (s0 s : CustomBP) (hp : Heap)
    (calls : List Call)
    (hc : construct params = .ok s0) (hrun : run s0 [] calls = .ok (s, hp))
    (hshift : params.instShiftAmt < 64)
    (hm : min params.instShiftAmt params.globalHistoryBits ≤ 32) :
    (∀ a h i, i < min params.instShiftAmt params.globalHistoryBits →
      (index s a h).testBit i = true) ∧
    (∀ a h, index s a h % 2 ^ min params.instShiftAmt params.globalHistoryBits
      = 2 ^ min params.instShiftAmt params.globalHistoryBits - 1) ∧
    (∀ (j : Nat) (c : SatCounter8), s.globalCtrs[j]? = some c →
      (∃ i, i < min params.instShiftAmt params.globalHistoryBits ∧ j.testBit i = false) →
      c.counter = 0) ∧
    (∀ (j : Nat) (c : SatCounter8), s.globalCtrs[j]? = some c →
      j % 2 ^ min params.instShiftAmt params.globalHistoryBits
        ≠ 2 ^ min params.instShiftAmt params.globalHistoryBits - 1 →
      c.counter = 0) := by
  have hr := run_reachable calls (Reachable.init hc) hrun
  have hinv := reachable_inv hr
  have hidx : ∀ a h i, i < min params.instShiftAmt params.globalHistoryBits →
      (index s a h).testBit i = true := by
    intro a h i hi
    apply index_low_bits s a h i hinv.configured.1
    · rw [hinv.shift]; exact hshift
    · rw [hinv.shift, hinv.bits]; exact hm
    · rw [hinv.shift, hinv.bits]; exact hi
  have hpos := reachable_trained_positions hr hshift hm
  refine ⟨hidx, ?_, ?_, ?_⟩
  · intro a h
    exact (low_bits_ones_iff _ _).mpr (hidx a h)
  · intro j c hj ⟨i, hi, hbit⟩
    by_contra hne
    have := hpos j c hj hne i hi
    rw [hbit] at this
    exact Bool.false_ne_true this
  · intro j c hj hmod
    by_contra hne
    exact hmod ((low_bits_ones_iff _ _).mpr (hpos j c hj hne))

/-- C20 on the default configuration (shift 2, 6 history bits): every index is
3 modulo 4, only counters at such positions can be non-zero, and 16 of the 64
positions are of that kind. -/
theorem untrained_counters_stay_zero_witness :
    ((∀ a h i, i < min 2 6 → (index demoState a h).testBit i = true) ∧
     (∀ a h, index demoState a h % 2 ^ min 2 6 = 2 ^ min 2 6 - 1) ∧
     (∀ (j : Nat) (c : SatCounter8), demoState.globalCtrs[j]? = some c →
       (∃ i, i < min 2 6 ∧ j.testBit i = false) → c.counter = 0) ∧
     (∀ (j : Nat) (c : SatCounter8), demoState.globalCtrs[j]? = some c →
       j % 2 ^ min 2 6 ≠ 2 ^ min 2 6 - 1 → c.counter = 0)) ∧
    ((List.range 64).filter (fun j => j % 2 ^ min 2 6 = 2 ^ min 2 6 - 1)).length = 16 :=
  ⟨untrained_counters_stay_zero demoParams demoFresh demoState [none, none, none, none]
      demoCalls rfl rfl (by decide) (by decide),
   by decide⟩

/-- The index never exceeds the stored mask, hence is below `2 ^ globalHistoryBits`. -/
theorem index_lt_two_pow (s : CustomBP) (a h : Nat)
    (hmask : s.historyRegisterMask = maskWord s.globalHistoryBits) :
    index s a h < 2 ^ s.globalHistoryBits := by
  have h1 : index s a h ≤ s.historyRegisterMask := by
    unfold index
    exact Nat.and_le_right
  have h2 := maskWord_le s.globalHistoryBits
  have h3 : 0 < 2 ^ s.globalHistoryBits := by positivity
  rw [hmask] at h1
  omega

/-- C1, as amended: construction ends in the fatal configuration error for
every `globalPredictorSize` that is no power of two; for every power of two
that is at least `2 ^ globalHistoryBits` it succeeds, with a table of
`globalPredictorSize` counters that holds every index the predictor can
compute. -/
theorem construct_accepts_covering_power_of_two (params : CustomBPParams) :
    ((¬ ∃ k, params.globalPredictorSize = 2 ^ k) → construct params = .error .fatal) ∧
    ((∃ k, params.globalPredictorSize = 2 ^ k) →
      2 ^ params.globalHistoryBits ≤ params.globalPredictorSize →
      ∃ s, construct params = .ok s ∧ s.globalCtrs.length = params.globalPredictorSize ∧
        s.globalHistoryBits = params.globalHistoryBits ∧
        ∀ a h, index s a h < s.globalCtrs.length) := by
  constructor
  · intro hn
    rw [← isPowerOf2_iff] at hn
    unfold construct
    simp [hn]
  · intro hk hle
    have hp := (isPowerOf2_iff _).mpr hk
    refine ⟨_, construct_eq_fresh hp, by simp [fresh], rfl, ?_⟩
    intro a h
    have := index_lt_two_pow (fresh params) a h rfl
    simp only [fresh, List.length_replicate] at this ⊢
    omega

/-- C1, as amended, on two configurations: 100 counters are refused, 128
counters with 6 history bits are accepted. -/
theorem construct_accepts_covering_power_of_two_witness :
    construct { largeTableParams with globalPredictorSize := 100 } = .error .fatal ∧
    ∃ s, construct largeTableParams = .ok s ∧ s.globalCtrs.length = 128 ∧
      s.globalHistoryBits = 6 ∧ ∀ a h, index s a h < s.globalCtrs.length :=
  ⟨(construct_accepts_covering_power_of_two
      { largeTableParams with globalPredictorSize := 100 }).1
      (by
        rintro ⟨k, hk⟩
        have hk' : (100 : Nat) = 2 ^ k := hk
        have hlt : k < 7 := by
          by_contra hge
          have : 2 ^ 7 ≤ 2 ^ k := Nat.pow_le_pow_right (by norm_num) (by omega)
          omega
        interval_cases k <;> omega),
   (construct_accepts_covering_power_of_two largeTableParams).2 ⟨7, rfl⟩ (by decide)⟩

end CustomBP
